import Mathlib

/-!
Verification of the spending-tracker core (`utils.py`, `merge.py`) against its
specification.  The Python functions are shallowly embedded as Lean functions:
strings are `String`/`List Char` with ASCII semantics, monetary amounts are `ℚ`,
dates are either a calendar-date structure (`PyDate`) or an integer day/month
index where the source only uses differences and ordering.
-/

set_option maxHeartbeats 1000000

namespace SpendingTracker

/-! ### Character primitives (ASCII model of the Python `str` methods used) -/

/-- Python's `\s` / `str.isspace` for the ASCII range. -/
def pyIsSpace (c : Char) : Bool :=
  c == ' ' || c == '\t' || c == '\n' || c == '\r' || c == '\x0b' || c == '\x0c'

def pyIsDigit (c : Char) : Bool := 48 ≤ c.toNat && c.toNat ≤ 57

def pyIsUpperA (c : Char) : Bool := 65 ≤ c.toNat && c.toNat ≤ 90

def pyIsLowerA (c : Char) : Bool := 97 ≤ c.toNat && c.toNat ≤ 122

/-- A cased character; for ASCII these are exactly the letters. -/
def pyIsAlpha (c : Char) : Bool := pyIsUpperA c || pyIsLowerA c

def pyToUpperC (c : Char) : Char :=
  if pyIsLowerA c then Char.ofNat (c.toNat - 32) else c

def pyToLowerC (c : Char) : Char :=
  if pyIsUpperA c then Char.ofNat (c.toNat + 32) else c

/-- Python `str.strip()` (both ends). -/
def pyStrip (l : List Char) : List Char :=
  ((l.dropWhile pyIsSpace).reverse.dropWhile pyIsSpace).reverse

/-- Python `str.isupper()`: at least one cased character and no lowercase one. -/
def pyIsUpperS (l : List Char) : Bool :=
  l.any pyIsAlpha && l.all (fun c => !pyIsLowerA c)

/-- Python `str.lower()`. -/
def pyLowerS (l : List Char) : List Char := l.map pyToLowerC

/-- One character of `str.title()`: `prev` records whether the previous
character was cased. -/
def pyTitleC (prev : Bool) (c : Char) : Char :=
  if pyIsAlpha c then (if prev then pyToLowerC c else pyToUpperC c) else c

/-- Worker for `str.title()`. -/
def pyTitleAux : Bool → List Char → List Char
  | _, [] => []
  | prev, c :: rest => pyTitleC prev c :: pyTitleAux (pyIsAlpha c) rest

/-- Python `str.title()` (ASCII): uppercase a letter that follows a
non-letter, lowercase a letter that follows a letter. -/
def pyTitle (l : List Char) : List Char := pyTitleAux false l

/-- Python's `needle in haystack` substring test. -/
def pyContainsL (hay needle : List Char) : Bool :=
  hay.tails.any (fun t => needle.isPrefixOf t)

def pyContains (hay needle : String) : Bool := pyContainsL hay.data needle.data

/-! ### `clean_merchant` (utils.py lines 59-71)

The three `re.sub` passes are embedded directly.  `$` is modelled as
end-of-string (the merchant strings processed here contain no trailing
newline, where Python's `$` could also match just before it). -/

/-- Fuel-driven worker for `stripHashCodes`; `fuel = l.length` always
suffices because every step consumes at least one character. -/
def stripHashCodesAux : Nat → List Char → List Char
  | 0, l => l
  | _ + 1, [] => []
  | fuel + 1, c :: rest =>
    match (c :: rest).dropWhile pyIsSpace with
    | '#' :: r2 =>
      if (r2.takeWhile pyIsDigit).isEmpty then c :: stripHashCodesAux fuel rest
      else stripHashCodesAux fuel (r2.dropWhile pyIsDigit)
    | _ => c :: stripHashCodesAux fuel rest

/-- `re.sub(r'\s*#\d+', '', name)`: left-to-right scan removing each
whitespace-run + `#` + digit-run occurrence. -/
def stripHashCodes (l : List Char) : List Char := stripHashCodesAux l.length l

/-- `re.sub(r'\s+\d{4,}$', '', name)`: drop a trailing maximal digit run of
length ≥ 4 together with the whitespace run immediately before it. -/
def stripTrailingStoreNum (l : List Char) : List Char :=
  let r := l.reverse
  let ds := r.takeWhile pyIsDigit
  let r1 := r.dropWhile pyIsDigit
  if 4 ≤ ds.length && !(r1.takeWhile pyIsSpace).isEmpty
  then (r1.dropWhile pyIsSpace).reverse else l

/-- `re.sub(r'\s+[A-Z]{2}$', '', name)`: drop a trailing 2-uppercase-letter
token together with the whitespace run immediately before it. -/
def stripTrailingState (l : List Char) : List Char :=
  match l.reverse with
  | c0 :: c1 :: r2 =>
    if pyIsUpperA c0 && pyIsUpperA c1 && !(r2.takeWhile pyIsSpace).isEmpty
    then (r2.dropWhile pyIsSpace).reverse else l
  | _ => l

def cleanMerchantL (l : List Char) : List Char :=
  let s4 := pyStrip (stripTrailingState (stripTrailingStoreNum (stripHashCodes l)))
  if pyIsUpperS s4 then pyTitle s4 else s4

/-- `clean_merchant` from utils.py. -/
def clean_merchant (s : String) : String := ⟨cleanMerchantL s.data⟩

/-! ### Character lemmas used for the `str.title()` idempotence argument -/

theorem toNat_ofNat_of_lt {n : Nat} (h : n < 55296) : (Char.ofNat n).toNat = n := by
  unfold Char.ofNat
  rw [dif_pos (Or.inl h)]
  rfl

theorem pyIsUpperA_bounds {c : Char} (h : pyIsUpperA c = true) :
    65 ≤ c.toNat ∧ c.toNat ≤ 90 := by
  simpa [pyIsUpperA, Bool.and_eq_true, decide_eq_true_eq] using h

theorem pyIsLowerA_bounds {c : Char} (h : pyIsLowerA c = true) :
    97 ≤ c.toNat ∧ c.toNat ≤ 122 := by
  simpa [pyIsLowerA, Bool.and_eq_true, decide_eq_true_eq] using h

theorem pyToLowerC_toNat {c : Char} (h : pyIsUpperA c = true) :
    (pyToLowerC c).toNat = c.toNat + 32 := by
  obtain ⟨h1, h2⟩ := pyIsUpperA_bounds h
  rw [pyToLowerC, if_pos h]
  exact toNat_ofNat_of_lt (by omega)

theorem pyToUpperC_toNat {c : Char} (h : pyIsLowerA c = true) :
    (pyToUpperC c).toNat = c.toNat - 32 := by
  obtain ⟨h1, h2⟩ := pyIsLowerA_bounds h
  rw [pyToUpperC, if_pos h]
  exact toNat_ofNat_of_lt (by omega)

theorem pyIsLowerA_pyToLowerC {c : Char} (h : pyIsUpperA c = true) :
    pyIsLowerA (pyToLowerC c) = true := by
  obtain ⟨h1, h2⟩ := pyIsUpperA_bounds h
  have := pyToLowerC_toNat h
  simp [pyIsLowerA, this]
  omega

theorem pyIsUpperA_pyToUpperC {c : Char} (h : pyIsLowerA c = true) :
    pyIsUpperA (pyToUpperC c) = true := by
  obtain ⟨h1, h2⟩ := pyIsLowerA_bounds h
  have := pyToUpperC_toNat h
  simp [pyIsUpperA, this]
  omega

theorem notUpper_notLower_disj (c : Char) : pyIsUpperA c = false ∨ pyIsLowerA c = false := by
  by_cases h : pyIsUpperA c = true
  · right
    obtain ⟨h1, h2⟩ := pyIsUpperA_bounds h
    simp [pyIsLowerA]
    omega
  · exact Or.inl (Bool.eq_false_iff.mpr h)

theorem pyToLowerC_eq_self {c : Char} (h : pyIsUpperA c = false) : pyToLowerC c = c := by
  rw [pyToLowerC, if_neg (by simp [h])]

theorem pyToUpperC_eq_self {c : Char} (h : pyIsLowerA c = false) : pyToUpperC c = c := by
  rw [pyToUpperC, if_neg (by simp [h])]

theorem pyToLowerC_idem (c : Char) : pyToLowerC (pyToLowerC c) = pyToLowerC c := by
  by_cases h : pyIsUpperA c = true
  · have hl := pyIsLowerA_pyToLowerC h
    have hu : pyIsUpperA (pyToLowerC c) = false := by
      rcases notUpper_notLower_disj (pyToLowerC c) with h' | h'
      · exact h'
      · rw [hl] at h'; exact absurd h' (by simp)
    exact pyToLowerC_eq_self hu
  · have h' : pyIsUpperA c = false := Bool.eq_false_iff.mpr h
    simp [pyToLowerC_eq_self h']

theorem pyToUpperC_idem (c : Char) : pyToUpperC (pyToUpperC c) = pyToUpperC c := by
  by_cases h : pyIsLowerA c = true
  · have hu := pyIsUpperA_pyToUpperC h
    have hl : pyIsLowerA (pyToUpperC c) = false := by
      rcases notUpper_notLower_disj (pyToUpperC c) with h' | h'
      · rw [hu] at h'; exact absurd h' (by simp)
      · exact h'
    exact pyToUpperC_eq_self hl
  · have h' : pyIsLowerA c = false := Bool.eq_false_iff.mpr h
    simp [pyToUpperC_eq_self h']

theorem pyIsAlpha_pyToLowerC (c : Char) : pyIsAlpha (pyToLowerC c) = pyIsAlpha c := by
  by_cases h : pyIsUpperA c = true
  · have := pyIsLowerA_pyToLowerC h
    simp [pyIsAlpha, this, h]
  · have h' : pyIsUpperA c = false := Bool.eq_false_iff.mpr h
    rw [pyToLowerC, if_neg (by simp [h'])]

theorem pyIsAlpha_pyToUpperC (c : Char) : pyIsAlpha (pyToUpperC c) = pyIsAlpha c := by
  by_cases h : pyIsLowerA c = true
  · have := pyIsUpperA_pyToUpperC h
    simp [pyIsAlpha, this, h]
  · have h' : pyIsLowerA c = false := Bool.eq_false_iff.mpr h
    rw [pyToUpperC, if_neg (by simp [h'])]

theorem pyIsAlpha_pyTitleC (b : Bool) (c : Char) : pyIsAlpha (pyTitleC b c) = pyIsAlpha c := by
  rw [pyTitleC]
  by_cases h : pyIsAlpha c = true
  · rw [if_pos h]
    cases b
    · simpa using pyIsAlpha_pyToUpperC c
    · simpa using pyIsAlpha_pyToLowerC c
  · rw [if_neg h]

theorem pyTitleC_idem (b : Bool) (c : Char) : pyTitleC b (pyTitleC b c) = pyTitleC b c := by
  by_cases h : pyIsAlpha c = true
  · have ha : pyIsAlpha (pyTitleC b c) = true := by rw [pyIsAlpha_pyTitleC, h]
    rw [pyTitleC, if_pos ha]
    cases b
    · simp only [Bool.false_eq_true, if_false]
      rw [pyTitleC, if_pos h]
      simp only [Bool.false_eq_true, if_false]
      exact pyToUpperC_idem c
    · simp only [if_true]
      rw [pyTitleC, if_pos h]
      simp only [if_true]
      exact pyToLowerC_idem c
  · have ha : pyIsAlpha (pyTitleC b c) = false := by
      rw [pyIsAlpha_pyTitleC]; exact Bool.eq_false_iff.mpr h
    rw [pyTitleC, if_neg (by simp [ha])]

theorem pyTitleAux_idem (l : List Char) : ∀ b, pyTitleAux b (pyTitleAux b l) = pyTitleAux b l := by
  induction l with
  | nil => intro b; rfl
  | cons c rest ih =>
    intro b
    simp only [pyTitleAux]
    rw [pyTitleC_idem, pyIsAlpha_pyTitleC, ih]

theorem pyTitle_idem (l : List Char) : pyTitle (pyTitle l) = pyTitle l :=
  pyTitleAux_idem l false

/-! ### Claim C8 -/

/-- Claim C8, counterexample: `clean_merchant` is not idempotent.  On
`"x AB CD"` one application strips the trailing `"CD"` state token, exposing
`"AB"` as a new trailing state token, which a second application strips. -/
theorem clean_merchant_not_idempotent :
    clean_merchant (clean_merchant "x AB CD") ≠ clean_merchant "x AB CD" := by
  decide

/-- Claim C8 (amended): `clean_merchant` is idempotent on every input whose
cleaned output is left unchanged by each of the three removal passes and by
whitespace trimming; it is not idempotent in general, because stripping a
trailing token can expose another strippable trailing token. -/
theorem clean_merchant_idem_of_stable (s : String)
    (h1 : stripHashCodes (clean_merchant s).data = (clean_merchant s).data)
    (h2 : stripTrailingStoreNum (clean_merchant s).data = (clean_merchant s).data)
    (h3 : stripTrailingState (clean_merchant s).data = (clean_merchant s).data)
    (h4 : pyStrip (clean_merchant s).data = (clean_merchant s).data) :
    clean_merchant (clean_merchant s) = clean_merchant s := by
  have hdata : cleanMerchantL (clean_merchant s).data = (clean_merchant s).data := by
    rw [cleanMerchantL]
    simp only [h1, h2, h3, h4]
    have hy : (clean_merchant s).data = cleanMerchantL s.data := rfl
    rw [hy, cleanMerchantL]
    by_cases hz : pyIsUpperS (pyStrip (stripTrailingState (stripTrailingStoreNum (stripHashCodes s.data)))) = true
    · rw [if_pos hz]
      by_cases ht : pyIsUpperS (pyTitle (pyStrip (stripTrailingState (stripTrailingStoreNum (stripHashCodes s.data))))) = true
      · rw [if_pos ht]
        exact pyTitle_idem _
      · rw [if_neg ht]
    · rw [if_neg hz, if_neg hz]
  show String.mk (cleanMerchantL (clean_merchant s).data) = clean_merchant s
  rw [hdata]

/-- Witness for `clean_merchant_idem_of_stable` at the spec's own example
input `"WHOLEFDS MKT #10432 TX"`. -/
theorem clean_merchant_idem_of_stable_witness :
    clean_merchant (clean_merchant "WHOLEFDS MKT #10432 TX") =
      clean_merchant "WHOLEFDS MKT #10432 TX" :=
  clean_merchant_idem_of_stable "WHOLEFDS MKT #10432 TX"
    (by decide) (by decide) (by decide) (by decide)

/-! ### Ingestion (utils.py `_load_checking` lines 85-121, `load_card` lines
124-146; merge.py has byte-identical copies of both)

Raw CSV cells are modelled post-parsing: dates as `Int`, amounts as `ℚ`,
text as `String`. -/

def CC_PAYMENT_KEYWORDS : List String := ["autopay", "payment thank you", "online payment"]

def TRANSFER_KEYWORDS : List String :=
  ["schwab", "moneylink", "fidelity", "vanguard", "tdameritrade",
   "e*trade", "etrade", "robinhood", "coinbase", "wealthfront",
   "betterment", "acorns", "stash invest"]

def pyStripS (s : String) : String := ⟨pyStrip s.data⟩

def pyTitleS (s : String) : String := ⟨pyTitle s.data⟩

def pyLowerStr (s : String) : String := ⟨pyLowerS s.data⟩

/-- One raw row of a checking-account CSV (`Details`, `Posting Date`,
`Description`, `Amount` columns, already parsed). -/
structure ChkRow where
  date : Int
  description : String
  amount : ℚ
  details : String
deriving DecidableEq, Repr

/-- One row of the canonical ledger: `Date, Description, Category, Amount,
Card, RecordType`. -/
structure LRow where
  date : Int
  description : String
  category : String
  amount : ℚ
  card : String
  recordType : String
deriving DecidableEq, Repr

/-- The loop body of `_load_checking`: `none` means the row is skipped. -/
def classifyChecking (card : String) (r : ChkRow) : Option LRow :=
  let desc := pyStripS r.description
  let amountRaw := r.amount
  let details := pyTitleS (pyStripS r.details)
  let isCredit : Bool := details == "Credit" || decide (0 < amountRaw)
  if !isCredit && CC_PAYMENT_KEYWORDS.any (fun kw => pyContains (pyLowerStr desc) kw) then
    none
  else
    let isTransfer := TRANSFER_KEYWORDS.any (fun kw => pyContains (pyLowerStr desc) kw)
    let rc : String × String :=
      if isTransfer then ("transfer", "Transfer")
      else if isCredit then ("income", "Income")
      else ("expense", "Uncategorized")
    some ⟨r.date, desc, rc.2, |amountRaw|, card, rc.1⟩

/-- `_load_checking`: parse a checking CSV into income/expense/transfer rows. -/
def _load_checking (card : String) (rows : List ChkRow) : List LRow :=
  rows.filterMap (classifyChecking card)

/-- One raw row of a credit-card CSV. -/
structure CardRow where
  date : Int
  description : String
  category : String
  amount : ℚ
deriving DecidableEq, Repr

/-- The per-row transform of the standard credit-card path of `load_card`:
`Amount = raw * amount_sign`, `RecordType = "expense"`, category falls back
to `"Uncategorized"` when the configured column is absent. -/
def creditTransform (sign : ℚ) (catPresent : Bool) (card : String) (r : CardRow) : LRow :=
  ⟨r.date, pyStripS r.description,
   if catPresent then pyStripS r.category else "Uncategorized",
   r.amount * sign, card, "expense"⟩

/-- The standard (non-checking) path of `load_card`: transform every raw row,
then keep only rows with `Amount > 0` (`df = df[df["Amount"] > 0]`). -/
def load_card_credit (sign : ℚ) (catPresent : Bool) (card : String) (rows : List CardRow) :
    List LRow :=
  (rows.map (creditTransform sign catPresent card)).filter (fun r => decide (0 < r.amount))

/-- Claim C1: every row reaching the ledger through either ingestion path has
a non-negative amount, whatever the source's sign convention; and the
credit-card path keeps exactly the rows whose raw amount times `amount_sign`
is strictly positive, dropping all others. -/
theorem ingested_amount_nonneg (sign : ℚ) (catPresent : Bool) (card : String)
    (rows : List CardRow) (chkRows : List ChkRow) :
    (∀ r ∈ load_card_credit sign catPresent card rows, 0 ≤ r.amount) ∧
    (∀ r ∈ _load_checking card chkRows, 0 ≤ r.amount) ∧
    load_card_credit sign catPresent card rows =
      (rows.filter (fun r => decide (0 < r.amount * sign))).map
        (creditTransform sign catPresent card) := by
  refine ⟨?_, ?_, ?_⟩
  · intro r hr
    rw [load_card_credit, List.mem_filter] at hr
    have := of_decide_eq_true hr.2
    exact le_of_lt this
  · intro r hr
    rw [_load_checking, List.mem_filterMap] at hr
    obtain ⟨a, _, ha⟩ := hr
    rw [classifyChecking] at ha
    by_cases hskip : (!(pyTitleS (pyStripS a.details) == "Credit" || decide (0 < a.amount)) &&
        CC_PAYMENT_KEYWORDS.any fun kw => pyContains (pyLowerStr (pyStripS a.description)) kw) = true
    · rw [if_pos hskip] at ha
      exact absurd ha (by simp)
    · rw [if_neg hskip] at ha
      have : r.amount = |a.amount| := by
        cases ha
        rfl
      rw [this]
      exact abs_nonneg _
  · rw [load_card_credit, List.filter_map]
    rfl

/-- Witness for `ingested_amount_nonneg`: a concrete Chase-style export row
(`amount_sign = -1`) with raw amount `-5` is ingested with amount `5 ≥ 0`. -/
theorem ingested_amount_nonneg_witness :
    0 ≤ (LRow.mk 0 "Coffee" "Dining" 5 "Chase" "expense").amount :=
  (ingested_amount_nonneg (-1) true "Chase" [⟨0, "Coffee", "Dining", -5⟩] []).1
    (LRow.mk 0 "Coffee" "Dining" 5 "Chase" "expense") (by
      have hmul : (-5 : ℚ) * (-1) = 5 := by norm_num
      have h : load_card_credit (-1) true "Chase" [⟨0, "Coffee", "Dining", -5⟩] =
          [LRow.mk 0 "Coffee" "Dining" 5 "Chase" "expense"] := by
        simp only [load_card_credit, List.map, creditTransform, hmul]
        decide
      rw [h]
      exact List.mem_singleton_self _)

/-- Checking-classifier semantics written from the spec text (§4.2 of the
spec, restated in claim C3): first matching rule wins, in the order
card-payment suppression, transfer, income, expense; amount stored as the
absolute raw amount. -/
def specCheckingClassify (card : String) (r : ChkRow) : Option LRow :=
  let desc := pyStripS r.description
  let marker := pyTitleS (pyStripS r.details)
  let isCredit : Bool := marker == "Credit" || decide (0 < r.amount)
  if !isCredit && CC_PAYMENT_KEYWORDS.any (fun kw => pyContains (pyLowerStr desc) kw) then
    none
  else if TRANSFER_KEYWORDS.any (fun kw => pyContains (pyLowerStr desc) kw) then
    some ⟨r.date, desc, "Transfer", |r.amount|, card, "transfer"⟩
  else if isCredit then
    some ⟨r.date, desc, "Income", |r.amount|, card, "income"⟩
  else
    some ⟨r.date, desc, "Uncategorized", |r.amount|, card, "expense"⟩

/-- Claim C3: the checking-row classifier implements exactly the spec's
ordered rules (with `is_credit` as marker-equals-Credit OR positive raw
amount), always stores the absolute raw amount, and maps empty input to an
empty ledger rather than an error. -/
theorem checking_classifier_correct :
    (∀ (card : String) (r : ChkRow), classifyChecking card r = specCheckingClassify card r) ∧
    (∀ (card : String) (r : ChkRow) (out : LRow),
      classifyChecking card r = some out → out.amount = |r.amount|) ∧
    (∀ card : String, _load_checking card [] = []) := by
  refine ⟨?_, ?_, fun _ => rfl⟩
  · intro card r
    rw [classifyChecking, specCheckingClassify]
    by_cases hskip : (!(pyTitleS (pyStripS r.details) == "Credit" || decide (0 < r.amount)) &&
        CC_PAYMENT_KEYWORDS.any fun kw => pyContains (pyLowerStr (pyStripS r.description)) kw) = true
    · rw [if_pos hskip, if_pos hskip]
    · rw [if_neg hskip, if_neg hskip]
      by_cases ht : (TRANSFER_KEYWORDS.any fun kw =>
          pyContains (pyLowerStr (pyStripS r.description)) kw) = true
      · simp only [ht, if_true]
      · simp only [ht, Bool.false_eq_true, if_false]
        by_cases hc : (pyTitleS (pyStripS r.details) == "Credit" || decide (0 < r.amount)) = true
        · simp only [hc, if_true]
        · simp only [hc, Bool.false_eq_true, if_false]
  · intro card r out h
    rw [classifyChecking] at h
    by_cases hskip : (!(pyTitleS (pyStripS r.details) == "Credit" || decide (0 < r.amount)) &&
        CC_PAYMENT_KEYWORDS.any fun kw => pyContains (pyLowerStr (pyStripS r.description)) kw) = true
    · rw [if_pos hskip] at h
      exact absurd h (by simp)
    · rw [if_neg hskip] at h
      cases h
      rfl

/-- Witness for `checking_classifier_correct`: evaluated on a concrete debit
row, and the absolute-amount consequence at a classified row. -/
theorem checking_classifier_correct_witness :
    (LRow.mk 0 "Grocery Store" "Uncategorized" 45 "Checking" "expense").amount =
      |(ChkRow.mk 0 "Grocery Store" (-45) "Debit").amount| :=
  checking_classifier_correct.2.1 "Checking" (ChkRow.mk 0 "Grocery Store" (-45) "Debit")
    (LRow.mk 0 "Grocery Store" "Uncategorized" 45 "Checking" "expense") (by decide)

/-! ### merge.py `main` (lines 136-149): sequence tagging and deduplication -/

abbrev MKey := Int × String × ℚ × String × String

/-- The dedup key columns `(Date, Description, Amount, Card, RecordType)` —
`Category`, `_source` and `_seq` are not part of it. -/
def mkey (r : LRow) : MKey := (r.date, r.description, r.amount, r.card, r.recordType)

/-- A loaded row tagged with its `_source` file name. -/
structure SRow where
  src : String
  row : LRow
deriving DecidableEq, Repr

/-- The `groupby` key of the `cumcount` step: `_source` plus the dedup
columns. -/
def skey (e : SRow) : String × MKey := (e.src, mkey e.row)

/-- `combined.groupby(["_source", ...]).cumcount()`: pair each row with the
number of earlier rows carrying the same `(source, key)`. -/
def tagFrom (seen : List SRow) : List SRow → List (SRow × Nat)
  | [] => []
  | e :: rest =>
    (e, seen.countP (fun q => decide (skey q = skey e))) :: tagFrom (seen ++ [e]) rest

/-- The `drop_duplicates` subset: the dedup columns plus `_seq`. -/
def dkey (p : SRow × Nat) : MKey × Nat := (mkey p.1.row, p.2)

/-- `drop_duplicates(subset=[..., "_seq"])`: keep the first row for each
`(key, seq)` value. -/
def dedupFrom (seen : List (MKey × Nat)) : List (SRow × Nat) → List (SRow × Nat)
  | [] => []
  | p :: rest =>
    if dkey p ∈ seen then dedupFrom (seen ++ [dkey p]) rest
    else p :: dedupFrom (seen ++ [dkey p]) rest

/-- Tag, drop duplicates, and drop the `_source`/`_seq` helper columns. -/
def mergeDedup (l : List SRow) : List LRow :=
  (dedupFrom [] (tagFrom [] l)).map (fun p => p.1.row)

/-- `sort_values(["Card", "Date"])` comparison. -/
def cardDateLe (a b : LRow) : Bool :=
  decide (a.card < b.card ∨ (a.card = b.card ∧ a.date ≤ b.date))

/-- The merge step of merge.py `main` on already-loaded, source-tagged rows:
tag with `_seq`, drop duplicates, drop helper columns, sort by
`(Card, Date)`. -/
def mergeRows (l : List SRow) : List LRow := (mergeDedup l).mergeSort cardDateLe

/-- Multiplicity of dedup key `K` in a ledger. -/
def countKey (rows : List LRow) (K : MKey) : Nat :=
  rows.countP (fun r => decide (mkey r = K))

/-- Multiplicity of dedup key `K` among the rows of source file `s`. -/
def countSrcKey (l : List SRow) (s : String) (K : MKey) : Nat :=
  l.countP (fun e => decide (skey e = (s, K)))

/-- The largest per-source-file multiplicity of dedup key `K`. -/
def maxSrcCount (l : List SRow) (K : MKey) : Nat :=
  (l.map SRow.src).foldr (fun s m => max (countSrcKey l s K) m) 0

theorem tagFrom_map_fst : ∀ (l seen : List SRow), (tagFrom seen l).map Prod.fst = l := by
  intro l
  induction l with
  | nil => intro seen; rfl
  | cons e rest ih => intro seen; simp [tagFrom, ih]

/-- Within one `(source, key)` group the assigned sequence indices are the
consecutive run starting at the number of matching rows already seen. -/
theorem tagFrom_seqs (s : String) (K : MKey) :
    ∀ (l seen : List SRow),
      (((tagFrom seen l).filter (fun p => decide (skey p.1 = (s, K)))).map Prod.snd)
        = List.range' (seen.countP (fun q => decide (skey q = (s, K)))) (countSrcKey l s K) := by
  intro l
  induction l with
  | nil => intro seen; simp [tagFrom, countSrcKey]
  | cons e rest ih =>
    intro seen
    by_cases he : skey e = (s, K)
    · simp only [tagFrom, List.filter_cons]
      rw [if_pos (by simp [he])]
      simp only [List.map_cons]
      rw [ih (seen ++ [e])]
      have hc : (seen ++ [e]).countP (fun q => decide (skey q = (s, K)))
          = seen.countP (fun q => decide (skey q = (s, K))) + 1 := by
        rw [List.countP_append]
        simp [he]
      have hm : countSrcKey (e :: rest) s K = countSrcKey rest s K + 1 := by
        rw [countSrcKey, List.countP_cons, if_pos (by simp [he])]
        rfl
      rw [hc, hm, List.range'_succ]
      simp [he]
    · simp only [tagFrom, List.filter_cons]
      rw [if_neg (by simp [he])]
      rw [ih (seen ++ [e])]
      have hc : (seen ++ [e]).countP (fun q => decide (skey q = (s, K)))
          = seen.countP (fun q => decide (skey q = (s, K))) := by
        rw [List.countP_append]
        simp [he]
      have hm : countSrcKey (e :: rest) s K = countSrcKey rest s K := by
        rw [countSrcKey, List.countP_cons, if_neg (by simp [he])]
        rfl
      rw [hc, hm]

/-- Everything `dedupFrom` keeps was in its input. -/
theorem dedupFrom_subset :
    ∀ (t : List (SRow × Nat)) (seen : List (MKey × Nat)) (p : SRow × Nat),
      p ∈ dedupFrom seen t → p ∈ t := by
  intro t
  induction t with
  | nil => intro seen p h; exact absurd h (by simp [dedupFrom])
  | cons q rest ih =>
    intro seen p h
    rw [dedupFrom] at h
    by_cases hq : dkey q ∈ seen
    · rw [if_pos hq] at h
      exact List.mem_cons_of_mem _ (ih _ _ h)
    · rw [if_neg hq] at h
      rcases List.mem_cons.mp h with h | h
      · exact h ▸ List.mem_cons_self _ _
      · exact List.mem_cons_of_mem _ (ih _ _ h)

/-- Per-`(key, seq)` multiplicity after dedup: zero if already seen,
otherwise at most one. -/
theorem dedupFrom_countP (d : MKey × Nat) :
    ∀ (t : List (SRow × Nat)) (seen : List (MKey × Nat)),
      (dedupFrom seen t).countP (fun p => decide (dkey p = d))
        = if d ∈ seen then 0
          else min 1 (t.countP (fun p => decide (dkey p = d))) := by
  intro t
  induction t with
  | nil =>
    intro seen
    simp [dedupFrom]
  | cons p rest ih =>
    intro seen
    rw [dedupFrom]
    by_cases hp : dkey p ∈ seen
    · rw [if_pos hp, ih (seen ++ [dkey p])]
      by_cases hd : d = dkey p
      · subst hd
        rw [if_pos (by simp), if_pos hp]
      · have h1 : d ∈ seen ++ [dkey p] ↔ d ∈ seen := by simp [hd]
        have h2 : (decide (dkey p = d)) = false := by
          simp only [decide_eq_false_iff_not]
          exact fun h => hd h.symm
        rw [List.countP_cons, h2]
        by_cases hs : d ∈ seen
        · rw [if_pos (h1.mpr hs), if_pos hs]
        · rw [if_neg (fun h => hs (h1.mp h)), if_neg hs]
          simp
    · rw [if_neg hp, List.countP_cons, ih (seen ++ [dkey p])]
      by_cases hd : d = dkey p
      · subst hd
        have h2 : (decide (dkey p = dkey p)) = true := by simp
        rw [if_pos (by simp), if_neg hp, h2, List.countP_cons, h2]
        simp
      · have h1 : d ∈ seen ++ [dkey p] ↔ d ∈ seen := by simp [hd]
        have h2 : (decide (dkey p = d)) = false := by
          simp only [decide_eq_false_iff_not]
          exact fun h => hd h.symm
        rw [h2, List.countP_cons, h2]
        by_cases hs : d ∈ seen
        · rw [if_pos (h1.mpr hs), if_pos hs]
          simp
        · rw [if_neg (fun h => hs (h1.mp h)), if_neg hs]
          simp

/-- Decompose a key count into per-sequence-index counts below a bound. -/
theorem countP_key_eq_sum (K : MKey) (B : Nat) :
    ∀ L : List (SRow × Nat), (∀ p ∈ L, mkey p.1.row = K → p.2 < B) →
      L.countP (fun p => decide (mkey p.1.row = K))
        = ∑ n ∈ Finset.range B, L.countP (fun p => decide (dkey p = (K, n))) := by
  intro L
  induction L with
  | nil => intro _; simp
  | cons p rest ih =>
    intro hb
    have hrest := fun q hq hk => hb q (List.mem_cons_of_mem _ hq) hk
    rw [List.countP_cons]
    have hsplit : ∑ n ∈ Finset.range B, (p :: rest).countP (fun q => decide (dkey q = (K, n)))
        = (∑ n ∈ Finset.range B, rest.countP (fun q => decide (dkey q = (K, n))))
          + ∑ n ∈ Finset.range B, (if decide (dkey p = (K, n)) = true then 1 else 0) := by
      rw [← Finset.sum_add_distrib]
      refine Finset.sum_congr rfl ?_
      intro n _
      rw [List.countP_cons]
    rw [hsplit, ← ih hrest]
    congr 1
    by_cases hk : mkey p.1.row = K
    · rw [if_pos (by simp [hk])]
      have hlt : p.2 < B := hb p (List.mem_cons_self _ _) hk
      have hterm : ∀ n, (if decide (dkey p = (K, n)) = true then (1 : Nat) else 0)
          = if p.2 = n then 1 else 0 := by
        intro n
        by_cases hn : p.2 = n
        · rw [if_pos hn, if_pos (by simp [dkey, hk, hn])]
        · rw [if_neg hn, if_neg (by simp [dkey, Prod.ext_iff, hk]; exact hn)]
      rw [Finset.sum_congr rfl (fun n _ => hterm n), Finset.sum_ite_eq]
      rw [if_pos (Finset.mem_range.mpr hlt)]
    · rw [if_neg (by simp [hk])]
      have hterm : ∀ n ∈ Finset.range B,
          (if decide (dkey p = (K, n)) = true then (1 : Nat) else 0) = 0 := by
        intro n _
        rw [if_neg]
        simp only [decide_eq_true_eq]
        intro h
        refine hk ?_
        have := congrArg Prod.fst h
        simpa [dkey] using this
      rw [Finset.sum_congr rfl hterm]
      simp

/-- A `(key, seq)` value occurs among the tagged rows exactly when some
source file holds more than `seq` rows with that key. -/
theorem mem_dkey_tag_iff (l : List SRow) (K : MKey) (n : Nat) :
    (K, n) ∈ (tagFrom [] l).map dkey ↔ ∃ s, n < countSrcKey l s K := by
  constructor
  · intro h
    rw [List.mem_map] at h
    obtain ⟨p, hp, hdk⟩ := h
    refine ⟨p.1.src, ?_⟩
    have hk : mkey p.1.row = K := by
      have := congrArg Prod.fst hdk
      simpa [dkey] using this
    have hn : p.2 = n := by
      have := congrArg Prod.snd hdk
      simpa [dkey] using this
    have hpf : p ∈ (tagFrom [] l).filter (fun q => decide (skey q.1 = (p.1.src, K))) := by
      rw [List.mem_filter]
      exact ⟨hp, by simp [skey, hk]⟩
    have hmem : p.2 ∈ (((tagFrom [] l).filter
        (fun q => decide (skey q.1 = (p.1.src, K)))).map Prod.snd) :=
      List.mem_map_of_mem _ hpf
    rw [tagFrom_seqs p.1.src K l [], List.mem_range'_1] at hmem
    simp only [List.countP_nil] at hmem
    omega
  · rintro ⟨s, hs⟩
    have hmem : n ∈ List.range'
        (List.countP (fun q => decide (skey q = (s, K))) []) (countSrcKey l s K) := by
      rw [List.mem_range'_1]
      simp only [List.countP_nil]
      omega
    rw [← tagFrom_seqs s K l [], List.mem_map] at hmem
    obtain ⟨p, hpf, hsnd⟩ := hmem
    rw [List.mem_filter] at hpf
    have hsk : skey p.1 = (s, K) := of_decide_eq_true hpf.2
    rw [List.mem_map]
    refine ⟨p, hpf.1, ?_⟩
    have hk : mkey p.1.row = K := by
      have := congrArg Prod.snd hsk
      simpa [skey] using this
    simp [dkey, hk, hsnd]

theorem lt_foldr_max_iff (f : String → Nat) (n : Nat) :
    ∀ xs : List String,
      (n < xs.foldr (fun s m => max (f s) m) 0) ↔ ∃ s ∈ xs, n < f s := by
  intro xs
  induction xs with
  | nil => simp
  | cons x rest ih =>
    simp only [List.foldr_cons, lt_max_iff, ih, List.mem_cons]
    constructor
    · rintro (h | ⟨s, hs, h⟩)
      · exact ⟨x, Or.inl rfl, h⟩
      · exact ⟨s, Or.inr hs, h⟩
    · rintro ⟨s, hs | hs, h⟩
      · exact Or.inl (hs ▸ h)
      · exact Or.inr ⟨s, hs, h⟩

theorem lt_maxSrcCount_iff (l : List SRow) (K : MKey) (n : Nat) :
    n < maxSrcCount l K ↔ ∃ s, n < countSrcKey l s K := by
  rw [maxSrcCount, lt_foldr_max_iff]
  constructor
  · rintro ⟨s, _, h⟩
    exact ⟨s, h⟩
  · rintro ⟨s, h⟩
    refine ⟨s, ?_, h⟩
    have hpos : 0 < countSrcKey l s K := by omega
    rw [countSrcKey, List.countP_pos_iff] at hpos
    obtain ⟨e, he, hek⟩ := hpos
    have hsrc : e.src = s := by
      have h1 := of_decide_eq_true hek
      have := congrArg Prod.fst h1
      simpa [skey] using this
    rw [List.mem_map]
    exact ⟨e, he, hsrc⟩

/-- The deduplicated ledger holds each dedup key with multiplicity equal to
the largest per-source multiplicity of that key. -/
theorem countKey_mergeDedup (l : List SRow) (K : MKey) :
    countKey (mergeDedup l) K = maxSrcCount l K := by
  rw [mergeDedup, countKey, List.countP_map]
  show (dedupFrom [] (tagFrom [] l)).countP (fun p => decide (mkey p.1.row = K))
      = maxSrcCount l K
  have hbound : ∀ p ∈ dedupFrom [] (tagFrom [] l),
      mkey p.1.row = K → p.2 < maxSrcCount l K := by
    intro p hp hk
    have hpt : p ∈ tagFrom [] l := dedupFrom_subset _ [] p hp
    have hmem : dkey p ∈ (tagFrom [] l).map dkey := List.mem_map_of_mem _ hpt
    have hdk : dkey p = (K, p.2) := by simp [dkey, hk]
    rw [hdk, mem_dkey_tag_iff] at hmem
    rw [lt_maxSrcCount_iff]
    exact hmem
  rw [countP_key_eq_sum K (maxSrcCount l K) _ hbound]
  have hone : ∀ n ∈ Finset.range (maxSrcCount l K),
      (dedupFrom [] (tagFrom [] l)).countP (fun p => decide (dkey p = (K, n))) = 1 := by
    intro n hn
    rw [dedupFrom_countP (K, n) (tagFrom [] l) [], if_neg (List.not_mem_nil _)]
    have hocc : (K, n) ∈ (tagFrom [] l).map dkey := by
      rw [mem_dkey_tag_iff]
      rw [Finset.mem_range] at hn
      exact (lt_maxSrcCount_iff l K n).mp hn
    rw [List.mem_map] at hocc
    obtain ⟨p, hpt, hdp⟩ := hocc
    have hpos : 0 < (tagFrom [] l).countP (fun p => decide (dkey p = (K, n))) := by
      rw [List.countP_pos_iff]
      exact ⟨p, hpt, by simp [hdp]⟩
    omega
  rw [Finset.sum_congr rfl hone]
  simp

/-- Sorting does not change key multiplicities. -/
theorem countKey_mergeRows (l : List SRow) (K : MKey) :
    countKey (mergeRows l) K = maxSrcCount l K := by
  rw [mergeRows, countKey,
    (List.mergeSort_perm (mergeDedup l) cardDateLe).countP_eq]
  exact countKey_mergeDedup l K

/-- Claim C2: each row is tagged with a per-source-file sequence index keyed
on `(source, date, description, amount, account, record_type)` — record type
included — and a row is dropped only in favour of an identical row with the
same index from a different source file.  Consequently the merged ledger
holds every dedup key with multiplicity equal to the largest per-source
multiplicity: identical-looking rows within one file are all retained, and a
row appearing identically once in each of two files is retained exactly
once. -/
theorem merge_dedup_correct (l : List SRow) (K : MKey) :
    countKey (mergeRows l) K = maxSrcCount l K ∧
    (∀ s : String, countSrcKey l s K ≤ countKey (mergeRows l) K) ∧
    (∀ s1 s2 : String, s1 ≠ s2 → countSrcKey l s1 K = 1 → countSrcKey l s2 K = 1 →
      (∀ s : String, s ≠ s1 → s ≠ s2 → countSrcKey l s K = 0) →
      countKey (mergeRows l) K = 1) ∧
    (∀ p ∈ tagFrom [] l, p ∉ dedupFrom [] (tagFrom [] l) →
      ∃ q ∈ tagFrom [] l, dkey q = dkey p ∧ q.1.src ≠ p.1.src) := by
  refine ⟨countKey_mergeRows l K, ?_, ?_, ?_⟩
  · intro s
    rw [countKey_mergeRows]
    by_cases h0 : countSrcKey l s K = 0
    · omega
    · have : countSrcKey l s K - 1 < maxSrcCount l K :=
        (lt_maxSrcCount_iff l K _).mpr ⟨s, by omega⟩
      omega
  · intro s1 s2 hne h1 h2 h0
    rw [countKey_mergeRows]
    have hle : ∀ s, countSrcKey l s K ≤ 1 := by
      intro s
      by_cases e1 : s = s1
      · rw [e1, h1]
      · by_cases e2 : s = s2
        · rw [e2, h2]
        · rw [h0 s e1 e2]
          omega
    have hub : ¬ (1 < maxSrcCount l K) := by
      intro h
      obtain ⟨s, hs⟩ := (lt_maxSrcCount_iff l K 1).mp h
      have := hle s
      omega
    have hlb : 0 < maxSrcCount l K :=
      (lt_maxSrcCount_iff l K 0).mpr ⟨s1, by omega⟩
    omega
  · intro p hp hnp
    have hpos : 0 < (tagFrom [] l).countP (fun q => decide (dkey q = dkey p)) := by
      rw [List.countP_pos_iff]
      exact ⟨p, hp, by simp⟩
    have hout : (dedupFrom [] (tagFrom [] l)).countP
        (fun q => decide (dkey q = dkey p)) = 1 := by
      rw [dedupFrom_countP (dkey p) (tagFrom [] l) [], if_neg (List.not_mem_nil _)]
      omega
    have hpos2 : 0 < (dedupFrom [] (tagFrom [] l)).countP
        (fun q => decide (dkey q = dkey p)) := by omega
    rw [List.countP_pos_iff] at hpos2
    obtain ⟨q, hq, hqd⟩ := hpos2
    have hqd' : dkey q = dkey p := of_decide_eq_true hqd
    have hqt : q ∈ tagFrom [] l := dedupFrom_subset _ [] q hq
    refine ⟨q, hqt, hqd', ?_⟩
    intro hsrc
    apply hnp
    have hkey : mkey q.1.row = mkey p.1.row := by
      have := congrArg Prod.fst hqd'
      simpa [dkey] using this
    have hsnd : q.2 = p.2 := by
      have := congrArg Prod.snd hqd'
      simpa [dkey] using this
    have hqf : q ∈ (tagFrom [] l).filter
        (fun r => decide (skey r.1 = (p.1.src, mkey p.1.row))) := by
      rw [List.mem_filter]
      exact ⟨hqt, by simp [skey, hsrc, hkey]⟩
    have hpf : p ∈ (tagFrom [] l).filter
        (fun r => decide (skey r.1 = (p.1.src, mkey p.1.row))) := by
      rw [List.mem_filter]
      exact ⟨hp, by simp [skey]⟩
    have hnodup : (((tagFrom [] l).filter
        (fun r => decide (skey r.1 = (p.1.src, mkey p.1.row)))).map Prod.snd).Nodup := by
      rw [tagFrom_seqs p.1.src (mkey p.1.row) l []]
      exact List.nodup_range' _ _
    have heq := List.inj_on_of_nodup_map hnodup hqf hpf hsnd
    exact heq ▸ hq

/-- Witness for `merge_dedup_correct`: the same $3 Starbucks charge present
in two overlapping exports collapses to exactly one ledger row. -/
theorem merge_dedup_correct_witness :
    countKey (mergeRows
        [⟨"a.csv", ⟨0, "Starbucks", "Dining", 3, "Chase", "expense"⟩⟩,
         ⟨"b.csv", ⟨0, "Starbucks", "Dining", 3, "Chase", "expense"⟩⟩])
      (mkey ⟨0, "Starbucks", "Dining", 3, "Chase", "expense"⟩) = 1 :=
  (merge_dedup_correct _ _).2.2.1 "a.csv" "b.csv" (by decide) (by decide) (by decide)
    (by
      intro s hs1 hs2
      simp [countSrcKey, List.countP_cons, skey, mkey, Prod.ext_iff, Ne.symm hs1, Ne.symm hs2])

/-- In a single-source tag every `(key, seq)` value occurs at most once. -/
theorem tag_single_src_countP_le_one (rows : List LRow) (s0 : String) (K : MKey) (n : Nat) :
    (tagFrom [] (rows.map (SRow.mk s0))).countP (fun p => decide (dkey p = (K, n))) ≤ 1 := by
  have hsrc : ∀ p ∈ tagFrom [] (rows.map (SRow.mk s0)), p.1.src = s0 := by
    intro p hp
    have hmem : p.1 ∈ (tagFrom [] (rows.map (SRow.mk s0))).map Prod.fst :=
      List.mem_map_of_mem _ hp
    rw [tagFrom_map_fst, List.mem_map] at hmem
    obtain ⟨r, _, hr⟩ := hmem
    rw [← hr]
  have hcongr : (tagFrom [] (rows.map (SRow.mk s0))).countP (fun p => decide (dkey p = (K, n)))
      = (tagFrom [] (rows.map (SRow.mk s0))).countP
          (fun p => decide (p.2 = n) && decide (skey p.1 = (s0, K))) := by
    apply List.countP_congr
    intro p hp
    simp only [decide_eq_true_eq, Bool.and_eq_true]
    constructor
    · intro h
      have h1 : mkey p.1.row = K := by
        have := congrArg Prod.fst h
        simpa [dkey] using this
      have h2 : p.2 = n := by
        have := congrArg Prod.snd h
        simpa [dkey] using this
      exact ⟨h2, by simp [skey, hsrc p hp, h1]⟩
    · rintro ⟨h2, h1⟩
      have hk : mkey p.1.row = K := by
        have := congrArg Prod.snd h1
        simpa [skey] using this
      simp [dkey, hk, h2]
  rw [hcongr, ← List.countP_filter]
  have hmap : ((tagFrom [] (rows.map (SRow.mk s0))).filter
        (fun p => decide (skey p.1 = (s0, K)))).countP (fun p => decide (p.2 = n))
      = (((tagFrom [] (rows.map (SRow.mk s0))).filter
          (fun p => decide (skey p.1 = (s0, K)))).map Prod.snd).countP
            (fun m => decide (m = n)) := by
    rw [List.countP_map]
    rfl
  rw [hmap, tagFrom_seqs s0 K _ []]
  have hnd : (List.range' (List.countP (fun q => decide (skey q = (s0, K))) [])
      (countSrcKey (rows.map (SRow.mk s0)) s0 K)).Nodup := List.nodup_range' _ _
  have hcount : (List.range' (List.countP (fun q => decide (skey q = (s0, K))) [])
        (countSrcKey (rows.map (SRow.mk s0)) s0 K)).countP (fun m => decide (m = n))
      = (List.range' (List.countP (fun q => decide (skey q = (s0, K))) [])
        (countSrcKey (rows.map (SRow.mk s0)) s0 K)).count n := by
    rw [List.count]
    apply List.countP_congr
    intro m _
    simp
  rw [hcount]
  exact List.nodup_iff_count_le_one.mp hnd n

/-- Dedup is the identity on inputs whose `(key, seq)` values are unique
and unseen. -/
theorem dedupFrom_eq_self :
    ∀ (t : List (SRow × Nat)) (seen : List (MKey × Nat)),
      (∀ d : MKey × Nat, t.countP (fun p => decide (dkey p = d)) ≤ 1) →
      (∀ p ∈ t, dkey p ∉ seen) →
      dedupFrom seen t = t := by
  intro t
  induction t with
  | nil => intro seen _ _; rfl
  | cons p rest ih =>
    intro seen hcnt hdisj
    rw [dedupFrom, if_neg (hdisj p (List.mem_cons_self _ _))]
    congr 1
    apply ih
    · intro d
      have h := hcnt d
      rw [List.countP_cons] at h
      omega
    · intro q hq hmem
      rw [List.mem_append] at hmem
      rcases hmem with h | h
      · exact hdisj q (List.mem_cons_of_mem _ hq) h
      · rw [List.mem_singleton] at h
        have h2 := hcnt (dkey p)
        rw [List.countP_cons, if_pos (by simp)] at h2
        have hpos : 0 < rest.countP (fun r => decide (dkey r = dkey p)) := by
          rw [List.countP_pos_iff]
          exact ⟨q, hq, by simp [h]⟩
        omega

/-- Tagging a single-source ledger and deduplicating it gives it back. -/
theorem mergeDedup_single (rows : List LRow) (s0 : String) :
    mergeDedup (rows.map (SRow.mk s0)) = rows := by
  rw [mergeDedup]
  rw [dedupFrom_eq_self _ []
      (fun d => tag_single_src_countP_le_one rows s0 d.1 d.2)
      (fun p _ => List.not_mem_nil _)]
  have h1 : (tagFrom [] (rows.map (SRow.mk s0))).map (fun p => p.1.row)
      = ((tagFrom [] (rows.map (SRow.mk s0))).map Prod.fst).map SRow.row := by
    rw [List.map_map]
    rfl
  rw [h1, tagFrom_map_fst, List.map_map]
  have hcomp : SRow.row ∘ SRow.mk s0 = id := rfl
  rw [hcomp, List.map_id]

theorem cardDateLe_trans :
    ∀ a b c, cardDateLe a b = true → cardDateLe b c = true → cardDateLe a c = true := by
  intro a b c hab hbc
  simp only [cardDateLe, decide_eq_true_eq] at hab hbc ⊢
  rcases hab with h | ⟨h1, h2⟩ <;> rcases hbc with h' | ⟨h1', h2'⟩
  · exact Or.inl (lt_trans h h')
  · exact Or.inl (h1' ▸ h)
  · exact Or.inl (h1 ▸ h')
  · exact Or.inr ⟨h1.trans h1', le_trans h2 h2'⟩

theorem cardDateLe_total : ∀ a b, (cardDateLe a b || cardDateLe b a) = true := by
  intro a b
  simp only [cardDateLe, Bool.or_eq_true, decide_eq_true_eq]
  rcases lt_trichotomy a.card b.card with h | h | h
  · exact Or.inl (Or.inl h)
  · rcases le_total a.date b.date with hd | hd
    · exact Or.inl (Or.inr ⟨h, hd⟩)
    · exact Or.inr (Or.inr ⟨h.symm, hd⟩)
  · exact Or.inr (Or.inl h)

/-- Claim C9: re-running the sequence-tagging and duplicate-drop algorithm on
its own (single combined source) output removes no rows and leaves the
ledger unchanged. -/
theorem merge_idempotent (l : List SRow) (s0 : String) :
    mergeRows ((mergeRows l).map (SRow.mk s0)) = mergeRows l := by
  have hs : List.Pairwise (fun a b => cardDateLe a b = true) (mergeRows l) := by
    rw [mergeRows]
    exact List.sorted_mergeSort cardDateLe_trans cardDateLe_total (mergeDedup l)
  show (mergeDedup ((mergeRows l).map (SRow.mk s0))).mergeSort cardDateLe = mergeRows l
  rw [mergeDedup_single]
  exact List.mergeSort_of_sorted hs

/-! ### Date-range resolver (utils.py `_months_back` lines 168-178,
`compute_date_range` lines 181-214)

`datetime.date` is a year/month/day triple; Python's `//` and `%` are
`Int.fdiv` / `Int.emod`, which agree with Python floor division and modulo
for the positive divisor 12 used here. -/

structure PyDate where
  year : Int
  month : Int
  day : Int
deriving DecidableEq, Repr

/-- `datetime.date` ordering (lexicographic on year, month, day). -/
def pdLe (a b : PyDate) : Prop :=
  a.year < b.year ∨ (a.year = b.year ∧
    (a.month < b.month ∨ (a.month = b.month ∧ a.day ≤ b.day)))

instance pdLeDec (a b : PyDate) : Decidable (pdLe a b) :=
  inferInstanceAs (Decidable (a.year < b.year ∨ (a.year = b.year ∧
    (a.month < b.month ∨ (a.month = b.month ∧ a.day ≤ b.day)))))

/-- Python `min` on dates (first argument on ties). -/
def pdMin (a b : PyDate) : PyDate := if pdLe a b then a else b

/-- Python `max` on dates (first argument on ties). -/
def pdMax (a b : PyDate) : PyDate := if pdLe b a then a else b

def isLeap (y : Int) : Bool :=
  y % 4 == 0 && (y % 100 != 0 || y % 400 == 0)

def daysInMonth (y m : Int) : Int :=
  if m = 2 then (if isLeap y then 29 else 28)
  else if m = 4 ∨ m = 6 ∨ m = 9 ∨ m = 11 then 30
  else 31

/-- `d.replace(day=1)`. -/
def firstOfMonth (d : PyDate) : PyDate := ⟨d.year, d.month, 1⟩

/-- `d - datetime.timedelta(days=1)`. -/
def pdPredDay (d : PyDate) : PyDate :=
  if 1 < d.day then ⟨d.year, d.month, d.day - 1⟩
  else if 1 < d.month then ⟨d.year, d.month - 1, daysInMonth d.year (d.month - 1)⟩
  else ⟨d.year - 1, 12, 31⟩

/-- `_months_back`: the source computes `month = d.month - n`,
`year = d.year + month // 12`, `month = month % 12 or 12`, then overwrites
both when `d.month - n <= 0`; the final values of each branch are written
out directly. -/
def _months_back (d : PyDate) (n : Int) : PyDate :=
  if d.month - n ≤ 0 then
    ⟨d.year - (Int.fdiv (-(d.month - n)) 12 + 1), 12 - (-(d.month - n)) % 12, 1⟩
  else
    ⟨d.year + Int.fdiv (d.month - n) 12,
     if (d.month - n) % 12 = 0 then 12 else (d.month - n) % 12, 1⟩

/-- `compute_date_range`: resolve a named preset into a concrete interval. -/
def compute_date_range (choice : String) (today min_date max_date : PyDate) :
    PyDate × PyDate :=
  let eff_end := if pdLe today max_date then pdMin today max_date else max_date
  if choice = "Last month" then
    let last_of_last_month := pdPredDay (firstOfMonth today)
    (pdMax (firstOfMonth last_of_last_month) min_date, pdMin last_of_last_month max_date)
  else if choice = "Last 3 months" then
    (pdMax (_months_back today 3) min_date, eff_end)
  else if choice = "Last 6 months" then
    (pdMax (_months_back today 6) min_date, eff_end)
  else if choice = "YTD" then
    (pdMax ⟨today.year, 1, 1⟩ min_date, eff_end)
  else if choice = "All time" then
    (min_date, max_date)
  else
    (pdMax (_months_back today 12) min_date, eff_end)

/-- Claim C6: for the preset `"Last month"` with `today = 2026-02-20`,
`min_date = 2024-01-01`, `max_date = 2026-02-20` the resolver returns
exactly `(2026-01-01, 2026-01-31)`, and its end differs from the end
returned for `"YTD"` on the same inputs. -/
theorem last_month_feb_2026 :
    compute_date_range "Last month" ⟨2026, 2, 20⟩ ⟨2024, 1, 1⟩ ⟨2026, 2, 20⟩
        = (⟨2026, 1, 1⟩, ⟨2026, 1, 31⟩) ∧
    (compute_date_range "Last month" ⟨2026, 2, 20⟩ ⟨2024, 1, 1⟩ ⟨2026, 2, 20⟩).2
      ≠ (compute_date_range "YTD" ⟨2026, 2, 20⟩ ⟨2024, 1, 1⟩ ⟨2026, 2, 20⟩).2 := by
  constructor
  · decide
  · decide

/-- First day of the calendar month `n` months before `d`'s month, defined
through the absolute month index `12 * year + (month - 1)`. -/
def specMonthsBack (d : PyDate) (n : Int) : PyDate :=
  ⟨Int.fdiv (12 * d.year + (d.month - 1) - n) 12,
   (12 * d.year + (d.month - 1) - n) % 12 + 1, 1⟩

theorem months_back_correct (d : PyDate) (n : Int)
    (hm1 : 1 ≤ d.month) (hm2 : d.month ≤ 12) (hn : 1 ≤ n) :
    _months_back d n = specMonthsBack d n := by
  have h12 : (0 : Int) ≤ 12 := by norm_num
  rw [_months_back, specMonthsBack]
  by_cases hle : d.month - n ≤ 0
  · rw [if_pos hle, Int.fdiv_eq_ediv _ h12, Int.fdiv_eq_ediv _ h12]
    simp only [PyDate.mk.injEq]
    refine ⟨by omega, by omega, trivial⟩
  · rw [if_neg hle, Int.fdiv_eq_ediv _ h12, Int.fdiv_eq_ediv _ h12,
      if_neg (by omega : ¬((d.month - n) % 12 = 0))]
    simp only [PyDate.mk.injEq]
    refine ⟨by omega, by omega, trivial⟩

theorem effEnd_eq (today max_date : PyDate) :
    (if pdLe today max_date then pdMin today max_date else max_date)
      = pdMin today max_date := by
  by_cases h : pdLe today max_date
  · rw [if_pos h]
  · rw [if_neg h, pdMin, if_neg h]

/-- Claim C7: for every preset `"Last N months"` (N in 3, 6, 12) and every
valid `today`, the resolver returns the first day of the month N months
before `today`'s month (via the absolute month index, hence correct across
year boundaries), clamped up to `min_date`, and `min(today, max_date)` as
the end; the computed month-start always has day 1, a month between 1 and
12, and a month index exactly N less than `today`'s. -/
theorem last_n_months_correct (today min_date max_date : PyDate)
    (hm1 : 1 ≤ today.month) (hm2 : today.month ≤ 12) :
    compute_date_range "Last 3 months" today min_date max_date
        = (pdMax (specMonthsBack today 3) min_date, pdMin today max_date) ∧
    compute_date_range "Last 6 months" today min_date max_date
        = (pdMax (specMonthsBack today 6) min_date, pdMin today max_date) ∧
    compute_date_range "Last 12 months" today min_date max_date
        = (pdMax (specMonthsBack today 12) min_date, pdMin today max_date) ∧
    (∀ n : Int, 1 ≤ n →
      (_months_back today n).day = 1 ∧
      1 ≤ (_months_back today n).month ∧ (_months_back today n).month ≤ 12 ∧
      12 * (_months_back today n).year + ((_months_back today n).month - 1)
        = 12 * today.year + (today.month - 1) - n) := by
  have h12 : (0 : Int) ≤ 12 := by norm_num
  refine ⟨?_, ?_, ?_, ?_⟩
  · rw [compute_date_range, if_neg (by decide), if_pos rfl]
    rw [months_back_correct today 3 hm1 hm2 (by norm_num), effEnd_eq]
  · rw [compute_date_range, if_neg (by decide), if_neg (by decide), if_pos rfl]
    rw [months_back_correct today 6 hm1 hm2 (by norm_num), effEnd_eq]
  · rw [compute_date_range, if_neg (by decide), if_neg (by decide), if_neg (by decide),
      if_neg (by decide), if_neg (by decide)]
    rw [months_back_correct today 12 hm1 hm2 (by norm_num), effEnd_eq]
  · intro n hn
    rw [months_back_correct today n hm1 hm2 hn]
    dsimp only [specMonthsBack]
    rw [Int.fdiv_eq_ediv _ h12]
    exact ⟨rfl, by omega, by omega, by omega⟩

/-- Witness for `last_n_months_correct`: twelve months back from
February 2026 starts the range at 2025-02-01 and ends it at today. -/
theorem last_n_months_correct_witness :
    compute_date_range "Last 12 months" ⟨2026, 2, 20⟩ ⟨2024, 1, 1⟩ ⟨2026, 2, 20⟩
      = (⟨2025, 2, 1⟩, ⟨2026, 2, 20⟩) := by
  have h := (last_n_months_correct ⟨2026, 2, 20⟩ ⟨2024, 1, 1⟩ ⟨2026, 2, 20⟩
    (by norm_num) (by norm_num)).2.2.1
  rw [h]
  decide

/-! ### Subscription detection (utils.py `detect_subscriptions` lines 279-311)

Rows carry the columns the function reads: `Description`, `Date` (as an
absolute day number — pandas `.diff().dt.days` yields day differences) and
`Amount`.  pandas `std()` is the sample standard deviation (`ddof = 1`);
every comparison `std <= c` (resp. `std/mean > 0.15`) below is expressed as
the equivalent `var <= c^2` (resp. `var > (0.15*mean)^2`), both bounds being
non-negative where used. -/

structure SubRow where
  date : Int
  description : String
  amount : ℚ
deriving DecidableEq, Repr

def qsum (l : List ℚ) : ℚ := l.foldr (· + ·) 0

/-- pandas `Series.mean()`. -/
def qmean (l : List ℚ) : ℚ := qsum l / l.length

/-- The square of pandas `Series.std()` (`ddof = 1`): the sample variance. -/
def qsampleVar (l : List ℚ) : ℚ :=
  qsum (l.map (fun x => (x - qmean l) ^ 2)) / ((l.length : ℚ) - 1)

/-- Consecutive differences (`Series.diff().dropna()`). -/
def diffs : List Int → List Int
  | a :: b :: rest => (b - a) :: diffs (b :: rest)
  | _ => []

/-- `group["Date"].sort_values()`. -/
def sortedDates (g : List SubRow) : List Int :=
  (g.map (fun r => r.date)).mergeSort (fun a b => decide (a ≤ b))

/-- Day gaps between consecutive charges, as rationals. -/
def gapsOf (g : List SubRow) : List ℚ :=
  (diffs (sortedDates g)).map (fun n : Int => (n : ℚ))

def avgGapOf (g : List SubRow) : ℚ := qmean (gapsOf g)

/-- Squared `std_gap = gaps.std() if len(gaps) > 1 else 0`. -/
def varGapOf (g : List SubRow) : ℚ :=
  if 1 < (gapsOf g).length then qsampleVar (gapsOf g) else 0

def amountsOf (g : List SubRow) : List ℚ := g.map (fun r => r.amount)

/-- The `if/elif` cadence chain of the source, squared-bound form. -/
def cadenceOf (g : List SubRow) : Option (String × ℚ) :=
  if 5 ≤ avgGapOf g ∧ avgGapOf g ≤ 9 ∧ varGapOf g ≤ 2 ^ 2 then
    some ("Weekly", qmean (amountsOf g) * (433 / 100))
  else if 25 ≤ avgGapOf g ∧ avgGapOf g ≤ 35 ∧ varGapOf g ≤ 5 ^ 2 then
    some ("Monthly", qmean (amountsOf g))
  else if 85 ≤ avgGapOf g ∧ avgGapOf g ≤ 95 ∧ varGapOf g ≤ 7 ^ 2 then
    some ("Quarterly", qmean (amountsOf g) / 3)
  else if 355 ≤ avgGapOf g ∧ avgGapOf g ≤ 375 ∧ varGapOf g ≤ 10 ^ 2 then
    some ("Annual", qmean (amountsOf g) / 12)
  else none

/-- `(amounts.std() / amounts.mean() if amounts.mean() > 0 else 1) > 0.15`:
the charge-amount coefficient-of-variation rejection test. -/
def cvExceeds (g : List SubRow) : Prop :=
  if 0 < qmean (amountsOf g) then
    (3 / 20 * qmean (amountsOf g)) ^ 2 < qsampleVar (amountsOf g)
  else True

instance cvExceedsDec (g : List SubRow) : Decidable (cvExceeds g) := by
  unfold cvExceeds
  infer_instance

structure SubEntry where
  merchant : String
  cadence : String
  occurrences : Nat
  avgCharge : ℚ
  estMonthly : ℚ
  firstSeen : Int
  lastSeen : Int
deriving DecidableEq, Repr

/-- Body of the per-merchant loop of `detect_subscriptions`; `none` means
the group is skipped. -/
def subEntryOf (minOcc : Nat) (m : String) (g : List SubRow) : Option SubEntry :=
  if g.length < minOcc then none
  else if (gapsOf g).length = 0 then none
  else
    match cadenceOf g with
    | none => none
    | some cm =>
      if cvExceeds g then none
      else some ⟨m, cm.1, g.length, qmean (amountsOf g), cm.2,
                 (sortedDates g).headD 0, (sortedDates g).getLastD 0⟩

/-- The merchant keys of `df.groupby("Description")`, in pandas' sorted key
order. -/
def merchantsOf (df : List SubRow) : List String :=
  ((df.map (fun r => r.description)).dedup).mergeSort (fun a b => decide (a ≤ b))

def groupOf (df : List SubRow) (m : String) : List SubRow :=
  df.filter (fun r => decide (r.description = m))

/-- `detect_subscriptions`: collect qualifying merchant groups and sort by
estimated monthly cost, descending. -/
def detect_subscriptions (df : List SubRow) (minOcc : Nat := 2) : List SubEntry :=
  ((merchantsOf df).filterMap (fun m => subEntryOf minOcc m (groupOf df m))).mergeSort
    (fun a b => decide (b.estMonthly ≤ a.estMonthly))

/-- The cadence windows as the claim states them (mean day-gap range and gap
standard-deviation cap, squared form). -/
def inWindow (g : List SubRow) : Prop :=
  (5 ≤ avgGapOf g ∧ avgGapOf g ≤ 9 ∧ varGapOf g ≤ 2 ^ 2) ∨
  (25 ≤ avgGapOf g ∧ avgGapOf g ≤ 35 ∧ varGapOf g ≤ 5 ^ 2) ∨
  (85 ≤ avgGapOf g ∧ avgGapOf g ≤ 95 ∧ varGapOf g ≤ 7 ^ 2) ∨
  (355 ≤ avgGapOf g ∧ avgGapOf g ≤ 375 ∧ varGapOf g ≤ 10 ^ 2)

/-- A merchant group qualifies as a subscription, written from the claim:
at least 2 occurrences, gap statistics inside one cadence window, and
charge-amount coefficient of variation at most 0.15 (rejecting whenever the
mean charge is not positive). -/
def specIsSubscription (g : List SubRow) : Prop :=
  2 ≤ g.length ∧ inWindow g ∧
  0 < qmean (amountsOf g) ∧
  qsampleVar (amountsOf g) ≤ (3 / 20 * qmean (amountsOf g)) ^ 2

theorem diffs_length : ∀ l : List Int, (diffs l).length = l.length - 1 := by
  intro l
  induction l with
  | nil => rfl
  | cons a rest ih =>
    cases rest with
    | nil => rfl
    | cons b rest2 =>
      show ((b - a) :: diffs (b :: rest2)).length = (a :: b :: rest2).length - 1
      rw [List.length_cons, ih]
      simp only [List.length_cons]
      omega

theorem gapsOf_length (g : List SubRow) : (gapsOf g).length = g.length - 1 := by
  rw [gapsOf, List.length_map, diffs_length, sortedDates, List.length_mergeSort,
    List.length_map]

theorem subEntryOf_merchant {minOcc : Nat} {m : String} {g : List SubRow} {e : SubEntry}
    (h : subEntryOf minOcc m g = some e) : e.merchant = m := by
  rw [subEntryOf] at h
  by_cases h1 : g.length < minOcc
  · rw [if_pos h1] at h
    exact absurd h (by simp)
  · rw [if_neg h1] at h
    by_cases h2 : (gapsOf g).length = 0
    · rw [if_pos h2] at h
      exact absurd h (by simp)
    · rw [if_neg h2] at h
      cases hc : cadenceOf g with
      | none =>
        rw [hc] at h
        exact absurd h (by simp)
      | some cm =>
        rw [hc] at h
        dsimp only at h
        by_cases h3 : cvExceeds g
        · rw [if_pos h3] at h
          exact absurd h (by simp)
        · rw [if_neg h3] at h
          cases h
          rfl

theorem cadenceOf_isSome_iff (g : List SubRow) :
    (∃ cm, cadenceOf g = some cm) ↔ inWindow g := by
  rw [cadenceOf, inWindow]
  split_ifs with h1 h2 h3 h4
  · exact ⟨fun _ => Or.inl h1, fun _ => ⟨_, rfl⟩⟩
  · exact ⟨fun _ => Or.inr (Or.inl h2), fun _ => ⟨_, rfl⟩⟩
  · exact ⟨fun _ => Or.inr (Or.inr (Or.inl h3)), fun _ => ⟨_, rfl⟩⟩
  · exact ⟨fun _ => Or.inr (Or.inr (Or.inr h4)), fun _ => ⟨_, rfl⟩⟩
  · constructor
    · rintro ⟨cm, hcm⟩
      exact absurd hcm (by simp)
    · intro h
      rcases h with h | h | h | h
      · exact absurd h h1
      · exact absurd h h2
      · exact absurd h h3
      · exact absurd h h4

theorem not_cvExceeds_iff (g : List SubRow) :
    ¬ cvExceeds g ↔ (0 < qmean (amountsOf g) ∧
      qsampleVar (amountsOf g) ≤ (3 / 20 * qmean (amountsOf g)) ^ 2) := by
  rw [cvExceeds]
  split_ifs with h
  · rw [not_lt]
    exact ⟨fun hv => ⟨h, hv⟩, fun hv => hv.2⟩
  · simp [h]

theorem subEntryOf_isSome_iff (m : String) (g : List SubRow) :
    (∃ e, subEntryOf 2 m g = some e) ↔ specIsSubscription g := by
  rw [specIsSubscription]
  constructor
  · rintro ⟨e, he⟩
    rw [subEntryOf] at he
    by_cases h1 : g.length < 2
    · rw [if_pos h1] at he
      exact absurd he (by simp)
    · rw [if_neg h1] at he
      by_cases h2 : (gapsOf g).length = 0
      · rw [if_pos h2] at he
        exact absurd he (by simp)
      · rw [if_neg h2] at he
        cases hc : cadenceOf g with
        | none =>
          rw [hc] at he
          exact absurd he (by simp)
        | some cm =>
          rw [hc] at he
          dsimp only at he
          by_cases h3 : cvExceeds g
          · rw [if_pos h3] at he
            exact absurd he (by simp)
          · exact ⟨by omega, (cadenceOf_isSome_iff g).mp ⟨cm, hc⟩,
              ((not_cvExceeds_iff g).mp h3).1, ((not_cvExceeds_iff g).mp h3).2⟩
  · rintro ⟨hlen, hwin, hmean, hvar⟩
    have h1 : ¬ (g.length < 2) := by omega
    have h2 : ¬ ((gapsOf g).length = 0) := by
      have := gapsOf_length g
      omega
    obtain ⟨cm, hc⟩ := (cadenceOf_isSome_iff g).mpr hwin
    have h3 : ¬ cvExceeds g := (not_cvExceeds_iff g).mpr ⟨hmean, hvar⟩
    refine ⟨⟨m, cm.1, g.length, qmean (amountsOf g), cm.2,
      (sortedDates g).headD 0, (sortedDates g).getLastD 0⟩, ?_⟩
    rw [subEntryOf, if_neg h1, if_neg h2, hc]
    dsimp only
    rw [if_neg h3]

/-- The spec's three worked examples. -/
def netflixDf : List SubRow :=
  [⟨0, "Netflix", 1599 / 100⟩, ⟨31, "Netflix", 1599 / 100⟩, ⟨59, "Netflix", 1599 / 100⟩]

def oneTimeDf : List SubRow := [⟨0, "One-Time Purchase", 50⟩]

def irregularDf : List SubRow :=
  [⟨0, "Irregular Co", 10⟩, ⟨30, "Irregular Co", 95⟩, ⟨60, "Irregular Co", 10⟩]

/-- Claim C4: `detect_subscriptions` reports a merchant exactly when its
group has at least 2 occurrences, its gap statistics fall in one of the four
cadence windows and its charge-amount coefficient of variation is at most
0.15; three monthly $15.99 Netflix charges yield exactly one Monthly entry,
a single occurrence yields none, and (10, 95, 10) at monthly spacing yields
none. -/
theorem detect_subscriptions_correct :
    (∀ (df : List SubRow) (m : String),
      (∃ e ∈ detect_subscriptions df, e.merchant = m) ↔ specIsSubscription (groupOf df m)) ∧
    detect_subscriptions netflixDf
      = [⟨"Netflix", "Monthly", 3, 1599 / 100, 1599 / 100, 0, 59⟩] ∧
    detect_subscriptions oneTimeDf = [] ∧
    detect_subscriptions irregularDf = [] := by
  refine ⟨?_, ?_, ?_, ?_⟩
  · intro df m
    constructor
    · rintro ⟨e, he, hm⟩
      rw [detect_subscriptions, (List.mergeSort_perm _ _).mem_iff, List.mem_filterMap] at he
      obtain ⟨m', hm', hsome⟩ := he
      have hmm : m' = m := by rw [← hm, subEntryOf_merchant hsome]
      rw [hmm] at hsome
      exact (subEntryOf_isSome_iff m (groupOf df m)).mp ⟨e, hsome⟩
    · intro hspec
      obtain ⟨e, he⟩ := (subEntryOf_isSome_iff m (groupOf df m)).mpr hspec
      refine ⟨e, ?_, subEntryOf_merchant he⟩
      rw [detect_subscriptions, (List.mergeSort_perm _ _).mem_iff, List.mem_filterMap]
      refine ⟨m, ?_, he⟩
      have hlen : 2 ≤ (groupOf df m).length := hspec.1
      have hne : groupOf df m ≠ [] := by
        intro h
        rw [h] at hlen
        simp at hlen
      obtain ⟨r, hr⟩ := List.exists_mem_of_ne_nil _ hne
      rw [groupOf, List.mem_filter] at hr
      have hrd : r.description = m := of_decide_eq_true hr.2
      rw [merchantsOf, (List.mergeSort_perm _ _).mem_iff, List.mem_dedup, List.mem_map]
      exact ⟨r, hr.1, hrd⟩
  · have hgroup : groupOf netflixDf "Netflix" = netflixDf := rfl
    have hsd : sortedDates netflixDf = [0, 31, 59] := by
      rw [sortedDates]
      show ([0, 31, 59] : List Int).mergeSort (fun a b => decide (a ≤ b)) = [0, 31, 59]
      exact List.mergeSort_of_sorted (by decide)
    have hgaps : gapsOf netflixDf = [((31 : ℤ) : ℚ), ((28 : ℤ) : ℚ)] := by
      rw [gapsOf, hsd]
      rfl
    have havg : avgGapOf netflixDf = 59 / 2 := by
      rw [avgGapOf, hgaps]
      norm_num [qmean, qsum]
    have hvar : varGapOf netflixDf = 9 / 2 := by
      rw [varGapOf, hgaps]
      norm_num [qsampleVar, qmean, qsum]
    have hamt : qmean (amountsOf netflixDf) = 1599 / 100 := by
      norm_num [amountsOf, netflixDf, qmean, qsum]
    have hvamt : qsampleVar (amountsOf netflixDf) = 0 := by
      norm_num [amountsOf, netflixDf, qsampleVar, qmean, qsum]
    have hcad : cadenceOf netflixDf = some ("Monthly", 1599 / 100) := by
      rw [cadenceOf, havg, hvar, hamt]
      norm_num
    have hcv : ¬ cvExceeds netflixDf := by
      rw [cvExceeds, hamt, hvamt]
      norm_num
    have hsub : subEntryOf 2 "Netflix" (groupOf netflixDf "Netflix")
        = some ⟨"Netflix", "Monthly", 3, 1599 / 100, 1599 / 100, 0, 59⟩ := by
      rw [hgroup, subEntryOf, if_neg (by decide), if_neg (by rw [hgaps]; decide), hcad]
      dsimp only
      rw [if_neg hcv, hamt, hsd]
      rfl
    have hmerch : merchantsOf netflixDf = ["Netflix"] := by
      rw [merchantsOf]
      have hd : (netflixDf.map (fun r => r.description)).dedup = ["Netflix"] := by decide
      rw [hd, List.mergeSort_singleton]
    rw [detect_subscriptions, hmerch]
    have hfm : (["Netflix"].filterMap (fun m => subEntryOf 2 m (groupOf netflixDf m)))
        = [⟨"Netflix", "Monthly", 3, 1599 / 100, 1599 / 100, 0, 59⟩] := by
      rw [List.filterMap_cons, hsub]
      rfl
    rw [hfm, List.mergeSort_singleton]
  · have hsub : subEntryOf 2 "One-Time Purchase" (groupOf oneTimeDf "One-Time Purchase")
        = none := by
      rw [subEntryOf, if_pos (by decide)]
    have hmerch : merchantsOf oneTimeDf = ["One-Time Purchase"] := by
      rw [merchantsOf]
      have hd : (oneTimeDf.map (fun r => r.description)).dedup = ["One-Time Purchase"] := by
        decide
      rw [hd, List.mergeSort_singleton]
    rw [detect_subscriptions, hmerch]
    have hfm : (["One-Time Purchase"].filterMap
        (fun m => subEntryOf 2 m (groupOf oneTimeDf m))) = [] := by
      rw [List.filterMap_cons, hsub]
      rfl
    rw [hfm, List.mergeSort_nil]
  · have hgroup : groupOf irregularDf "Irregular Co" = irregularDf := rfl
    have hsd : sortedDates irregularDf = [0, 30, 60] := by
      rw [sortedDates]
      show ([0, 30, 60] : List Int).mergeSort (fun a b => decide (a ≤ b)) = [0, 30, 60]
      exact List.mergeSort_of_sorted (by decide)
    have hgaps : gapsOf irregularDf = [((30 : ℤ) : ℚ), ((30 : ℤ) : ℚ)] := by
      rw [gapsOf, hsd]
      rfl
    have havg : avgGapOf irregularDf = 30 := by
      rw [avgGapOf, hgaps]
      norm_num [qmean, qsum]
    have hvar : varGapOf irregularDf = 0 := by
      rw [varGapOf, hgaps]
      norm_num [qsampleVar, qmean, qsum]
    have hamt : qmean (amountsOf irregularDf) = 115 / 3 := by
      norm_num [amountsOf, irregularDf, qmean, qsum]
    have hvamt : qsampleVar (amountsOf irregularDf) = 7225 / 3 := by
      norm_num [amountsOf, irregularDf, qsampleVar, qmean, qsum]
    have hcad : cadenceOf irregularDf = some ("Monthly", 115 / 3) := by
      rw [cadenceOf, havg, hvar, hamt]
      norm_num
    have hcv : cvExceeds irregularDf := by
      rw [cvExceeds, hamt, hvamt]
      norm_num
    have hsub : subEntryOf 2 "Irregular Co" (groupOf irregularDf "Irregular Co") = none := by
      rw [hgroup, subEntryOf, if_neg (by decide), if_neg (by rw [hgaps]; decide), hcad]
      dsimp only
      rw [if_pos hcv]
    have hmerch : merchantsOf irregularDf = ["Irregular Co"] := by
      rw [merchantsOf]
      have hd : (irregularDf.map (fun r => r.description)).dedup = ["Irregular Co"] := by
        decide
      rw [hd, List.mergeSort_singleton]
    rw [detect_subscriptions, hmerch]
    have hfm : (["Irregular Co"].filterMap
        (fun m => subEntryOf 2 m (groupOf irregularDf m))) = [] := by
      rw [List.filterMap_cons, hsub]
      rfl
    rw [hfm, List.mergeSort_nil]

/-! ### Insight engine (utils.py `compute_insights` lines 315-356)

Rows carry the columns the function reads: `YearMonth` (an absolute month
index), `Category`, `Description` and `Amount`.  Python iterates the
category key set in unspecified order; sorted order is used here (no claim
depends on the relative order of equal-|delta| insights).  The category
headline interpolates `abs(pct)*100` with the float format `:.0f`, modelled
as nearest-integer rounding of the exact rational (`pctFmt`); no claim reads
that string. -/

structure InsRow where
  ym : Int
  description : String
  category : String
  amount : ℚ
deriving DecidableEq, Repr

structure Insight where
  type : String
  category : String
  headline : String
  dollar_amount : ℚ
  dollar_change : ℚ
  pct_change : ℚ
  indicator : String
deriving DecidableEq, Repr

/-- The distinct `YearMonth` values (`nunique` counts them). -/
def ymsOf (df : List InsRow) : List Int := (df.map (fun r : InsRow => r.ym)).dedup

/-- `df["YearMonth"].max()`. -/
def currentPeriod (df : List InsRow) : Int :=
  ((df.map (fun r : InsRow => r.ym)).max?).getD 0

/-- `sorted([p for p in unique if p < current])`. -/
def priorSorted (df : List InsRow) : List Int :=
  ((ymsOf df).filter
    (fun p => decide (p < currentPeriod df))).mergeSort (fun a b => decide (a ≤ b))

/-- `sorted([p for p in unique if p < current])[-3:]`. -/
def baselinePeriods (df : List InsRow) : List Int :=
  (priorSorted df).drop ((priorSorted df).length - 3)

def currentRows (df : List InsRow) : List InsRow :=
  df.filter (fun r => decide (r.ym = currentPeriod df))

/-- `current_by_cat.get(cat, 0)`. -/
def currentByCat (df : List InsRow) (cat : String) : ℚ :=
  qsum (((currentRows df).filter (fun r => decide (r.category = cat))).map
    (fun r : InsRow => r.amount))

/-- `baseline_by_cat.get(cat, 0)`: baseline-period sum divided by the number
of baseline periods. -/
def baselineByCat (df : List InsRow) (cat : String) : ℚ :=
  qsum (((df.filter (fun r => decide (r.ym ∈ baselinePeriods df))).filter
      (fun r => decide (r.category = cat))).map (fun r : InsRow => r.amount))
    / (baselinePeriods df).length

/-- `set(current_by_cat.index) | set(baseline_by_cat.index)`, in sorted
order. -/
def catsOf (df : List InsRow) : List String :=
  (((df.filter (fun r =>
      decide (r.ym = currentPeriod df) || decide (r.ym ∈ baselinePeriods df))).map
        (fun r : InsRow => r.category)).dedup).mergeSort (fun a b => decide (a ≤ b))

def deltaOf (df : List InsRow) (cat : String) : ℚ :=
  currentByCat df cat - baselineByCat df cat

/-- `dollar_change / baseline if baseline > 0 else (1.0 if this_month > 0
else 0)`: the zero-baseline sentinel branch, never an arithmetic fault. -/
def pctOf (df : List InsRow) (cat : String) : ℚ :=
  if 0 < baselineByCat df cat then deltaOf df cat / baselineByCat df cat
  else if 0 < currentByCat df cat then 1 else 0

/-- Display-only rendering of `abs(pct)*100` with format `:.0f`. -/
def pctFmt (q : ℚ) : String := toString (round (|q| * 100))

def catHeadline (cat : String) (delta pct : ℚ) : String :=
  cat ++ " " ++ (if 0 < delta then "up" else "down") ++ " " ++ pctFmt pct ++ "% vs avg"

/-- The category loop of `compute_insights`. -/
def categoryCandidates (df : List InsRow) : List Insight :=
  (catsOf df).filterMap (fun cat =>
    if 1/5 ≤ |pctOf df cat| ∧ 25 ≤ |deltaOf df cat| then
      some ⟨"category", cat, catHeadline cat (deltaOf df cat) (pctOf df cat),
            currentByCat df cat, deltaOf df cat, pctOf df cat,
            if 0 < deltaOf df cat then "spike" else "drop"⟩
    else none)

/-- The merchant keys of `current_df.groupby("Description")`, sorted. -/
def currentMerchants (df : List InsRow) : List String :=
  (((currentRows df).map (fun r : InsRow => r.description)).dedup).mergeSort
    (fun a b => decide (a ≤ b))

def merchantSum (df : List InsRow) (m : String) : ℚ :=
  qsum (((currentRows df).filter (fun r => decide (r.description = m))).map
    (fun r : InsRow => r.amount))

/-- `nlargest(1)` over the per-merchant sums (first maximum in sorted key
order wins). -/
def topMerchant (df : List InsRow) : Option (String × ℚ) :=
  (currentMerchants df).foldl (fun acc m =>
    match acc with
    | none => some (m, merchantSum df m)
    | some (m0, s0) =>
      if merchantSum df m > s0 then some (m, merchantSum df m) else some (m0, s0)) none

/-- The `Top merchant` info insight (present when the current period is
non-empty). -/
def merchantInsight (df : List InsRow) : List Insight :=
  match topMerchant df with
  | none => []
  | some (m, s) => [⟨"merchant", "Top Merchant", "Top merchant: " ++ m, s, s, 0, "info"⟩]

def insightCandidates (df : List InsRow) : List Insight :=
  categoryCandidates df ++ merchantInsight df

/-- `compute_insights`: guards, candidate generation, stable sort by
`abs(dollar_change)` descending, cap at 5. -/
def compute_insights (df : List InsRow) : List Insight :=
  if df.isEmpty ∨ (ymsOf df).length < 2 then []
  else if (baselinePeriods df).length = 0 then []
  else ((insightCandidates df).mergeSort
    (fun a b => decide (|b.dollar_change| ≤ |a.dollar_change|))).take 5

theorem mem_categoryCandidates_iff (df : List InsRow) (cat : String) :
    (∃ i ∈ categoryCandidates df, i.category = cat) ↔
      (cat ∈ catsOf df ∧ 1/5 ≤ |pctOf df cat| ∧ 25 ≤ |deltaOf df cat|) := by
  constructor
  · rintro ⟨i, hi, hcat⟩
    rw [categoryCandidates, List.mem_filterMap] at hi
    obtain ⟨c, hc, hsome⟩ := hi
    by_cases hcond : 1/5 ≤ |pctOf df c| ∧ 25 ≤ |deltaOf df c|
    · rw [if_pos hcond] at hsome
      cases hsome
      have hceq : c = cat := hcat
      subst hceq
      exact ⟨hc, hcond.1, hcond.2⟩
    · rw [if_neg hcond] at hsome
      exact absurd hsome (by simp)
  · rintro ⟨hmem, h1, h2⟩
    refine ⟨⟨"category", cat, catHeadline cat (deltaOf df cat) (pctOf df cat),
      currentByCat df cat, deltaOf df cat, pctOf df cat,
      if 0 < deltaOf df cat then "spike" else "drop"⟩, ?_, rfl⟩
    rw [categoryCandidates, List.mem_filterMap]
    exact ⟨cat, hmem, by rw [if_pos ⟨h1, h2⟩]⟩

theorem categoryCandidates_fields (df : List InsRow) (i : Insight)
    (hi : i ∈ categoryCandidates df) :
    i.type = "category" ∧
    i.dollar_amount = currentByCat df i.category ∧
    i.dollar_change = deltaOf df i.category ∧
    i.pct_change = pctOf df i.category ∧
    i.indicator = (if 0 < deltaOf df i.category then "spike" else "drop") := by
  rw [categoryCandidates, List.mem_filterMap] at hi
  obtain ⟨c, hc, hsome⟩ := hi
  by_cases hcond : 1/5 ≤ |pctOf df c| ∧ 25 ≤ |deltaOf df c|
  · rw [if_pos hcond] at hsome
    cases hsome
    exact ⟨rfl, rfl, rfl, rfl, rfl⟩
  · rw [if_neg hcond] at hsome
    exact absurd hsome (by simp)

/-- Membership in `compute_insights` coincides with membership in the
candidate list whenever the guards pass and no truncation occurs. -/
theorem mem_compute_insights_iff (df : List InsRow)
    (hg : ¬(df.isEmpty = true ∨ (ymsOf df).length < 2))
    (hb : ¬((baselinePeriods df).length = 0))
    (hlen : (insightCandidates df).length ≤ 5) (i : Insight) :
    (i ∈ compute_insights df ↔ i ∈ insightCandidates df) := by
  rw [compute_insights, if_neg hg, if_neg hb,
    List.take_of_length_le (by rw [List.length_mergeSort]; exact hlen)]
  exact (List.mergeSort_perm _ _).mem_iff

/-- The spec's insight examples: three $200 Dining months then $400; three
$100 Health months then $30; three $20 Dining months then $21. -/
def spikeDf : List InsRow :=
  [⟨0, "Restaurant", "Dining", 200⟩, ⟨1, "Restaurant", "Dining", 200⟩,
   ⟨2, "Restaurant", "Dining", 200⟩, ⟨3, "Restaurant", "Dining", 400⟩]

def dropDf : List InsRow :=
  [⟨0, "Gym", "Health", 100⟩, ⟨1, "Gym", "Health", 100⟩,
   ⟨2, "Gym", "Health", 100⟩, ⟨3, "Gym", "Health", 30⟩]

def smallDf : List InsRow :=
  [⟨0, "Coffee", "Dining", 20⟩, ⟨1, "Coffee", "Dining", 20⟩,
   ⟨2, "Coffee", "Dining", 20⟩, ⟨3, "Coffee", "Dining", 21⟩]

theorem spikeDf_candidates :
    insightCandidates spikeDf =
      [⟨"category", "Dining", catHeadline "Dining" 200 1, 400, 200, 1, "spike"⟩,
       ⟨"merchant", "Top Merchant", "Top merchant: Restaurant", 400, 400, 0, "info"⟩] := by
  have hcp : currentPeriod spikeDf = 3 := by decide
  have hps : priorSorted spikeDf = [0, 1, 2] := by
    rw [priorSorted]
    have hf : (ymsOf spikeDf).filter (fun p => decide (p < currentPeriod spikeDf))
        = [0, 1, 2] := by decide
    rw [hf]
    exact List.mergeSort_of_sorted (by decide)
  have hbp : baselinePeriods spikeDf = [0, 1, 2] := by
    rw [baselinePeriods, hps]
    rfl
  have hcrows : currentRows spikeDf = [⟨3, "Restaurant", "Dining", 400⟩] := rfl
  have hcur : currentByCat spikeDf "Dining" = 400 := by
    rw [currentByCat, hcrows]
    norm_num [qsum]
  have hbase : baselineByCat spikeDf "Dining" = 200 := by
    rw [baselineByCat, hbp]
    norm_num [qsum, spikeDf]
  have hdelta : deltaOf spikeDf "Dining" = 200 := by
    rw [deltaOf, hcur, hbase]
    norm_num
  have hpct : pctOf spikeDf "Dining" = 1 := by
    rw [pctOf, hbase, hdelta, hcur]
    norm_num
  have hcats : catsOf spikeDf = ["Dining"] := by
    rw [catsOf]
    have hf : ((spikeDf.filter (fun r =>
        decide (r.ym = currentPeriod spikeDf) || decide (r.ym ∈ baselinePeriods spikeDf))).map
          (fun r : InsRow => r.category)).dedup = ["Dining"] := by
      simp only [hcp, hbp]
      decide
    rw [hf, List.mergeSort_singleton]
  have hccand : categoryCandidates spikeDf =
      [⟨"category", "Dining", catHeadline "Dining" 200 1, 400, 200, 1, "spike"⟩] := by
    simp only [categoryCandidates, hcats, List.filterMap_cons, List.filterMap_nil,
      hpct, hdelta, hcur]
    norm_num
  have hmerch : currentMerchants spikeDf = ["Restaurant"] := by
    rw [currentMerchants, hcrows]
    show (["Restaurant"] : List String).mergeSort (fun a b => decide (a ≤ b)) = ["Restaurant"]
    exact List.mergeSort_singleton _
  have hms : merchantSum spikeDf "Restaurant" = 400 := by
    rw [merchantSum, hcrows]
    norm_num [qsum]
  have hts : topMerchant spikeDf = some ("Restaurant", 400) := by
    rw [topMerchant, hmerch, List.foldl_cons, List.foldl_nil]
    dsimp only
    rw [hms]
  have hmi : merchantInsight spikeDf =
      [⟨"merchant", "Top Merchant", "Top merchant: Restaurant", 400, 400, 0, "info"⟩] := by
    rw [merchantInsight, hts]
    rfl
  rw [insightCandidates, hccand, hmi]
  rfl

theorem dropDf_candidates :
    insightCandidates dropDf =
      [⟨"category", "Health", catHeadline "Health" (-70) (-7/10), 30, -70, -7/10, "drop"⟩,
       ⟨"merchant", "Top Merchant", "Top merchant: Gym", 30, 30, 0, "info"⟩] := by
  have hcp : currentPeriod dropDf = 3 := by decide
  have hps : priorSorted dropDf = [0, 1, 2] := by
    rw [priorSorted]
    have hf : (ymsOf dropDf).filter (fun p => decide (p < currentPeriod dropDf))
        = [0, 1, 2] := by decide
    rw [hf]
    exact List.mergeSort_of_sorted (by decide)
  have hbp : baselinePeriods dropDf = [0, 1, 2] := by
    rw [baselinePeriods, hps]
    rfl
  have hcrows : currentRows dropDf = [⟨3, "Gym", "Health", 30⟩] := rfl
  have hcur : currentByCat dropDf "Health" = 30 := by
    rw [currentByCat, hcrows]
    norm_num [qsum]
  have hbase : baselineByCat dropDf "Health" = 100 := by
    rw [baselineByCat, hbp]
    norm_num [qsum, dropDf]
  have hdelta : deltaOf dropDf "Health" = -70 := by
    rw [deltaOf, hcur, hbase]
    norm_num
  have hpct : pctOf dropDf "Health" = -7/10 := by
    rw [pctOf, hbase, hdelta]
    norm_num
  have hcats : catsOf dropDf = ["Health"] := by
    rw [catsOf]
    have hf : ((dropDf.filter (fun r =>
        decide (r.ym = currentPeriod dropDf) || decide (r.ym ∈ baselinePeriods dropDf))).map
          (fun r : InsRow => r.category)).dedup = ["Health"] := by
      simp only [hcp, hbp]
      decide
    rw [hf, List.mergeSort_singleton]
  have hccand : categoryCandidates dropDf =
      [⟨"category", "Health", catHeadline "Health" (-70) (-7/10), 30, -70, -7/10, "drop"⟩] := by
    rw [categoryCandidates, hcats, List.filterMap_cons, List.filterMap_nil]
    rw [hpct, hdelta, hcur]
    have h1 : (1/5 : ℚ) ≤ |(-7/10 : ℚ)| := by
      rw [(by norm_num : |(-7/10 : ℚ)| = 7/10)]
      norm_num
    have h2 : (25 : ℚ) ≤ |(-70 : ℚ)| := by norm_num
    rw [if_pos ⟨h1, h2⟩, if_neg (by norm_num : ¬(0:ℚ) < -70)]
  have hmerch : currentMerchants dropDf = ["Gym"] := by
    rw [currentMerchants, hcrows]
    show (["Gym"] : List String).mergeSort (fun a b => decide (a ≤ b)) = ["Gym"]
    exact List.mergeSort_singleton _
  have hms : merchantSum dropDf "Gym" = 30 := by
    rw [merchantSum, hcrows]
    norm_num [qsum]
  have hts : topMerchant dropDf = some ("Gym", 30) := by
    rw [topMerchant, hmerch, List.foldl_cons, List.foldl_nil]
    dsimp only
    rw [hms]
  have hmi : merchantInsight dropDf =
      [⟨"merchant", "Top Merchant", "Top merchant: Gym", 30, 30, 0, "info"⟩] := by
    rw [merchantInsight, hts]
    rfl
  rw [insightCandidates, hccand, hmi]
  rfl

theorem smallDf_candidates :
    insightCandidates smallDf =
      [⟨"merchant", "Top Merchant", "Top merchant: Coffee", 21, 21, 0, "info"⟩] := by
  have hcp : currentPeriod smallDf = 3 := by decide
  have hps : priorSorted smallDf = [0, 1, 2] := by
    rw [priorSorted]
    have hf : (ymsOf smallDf).filter (fun p => decide (p < currentPeriod smallDf))
        = [0, 1, 2] := by decide
    rw [hf]
    exact List.mergeSort_of_sorted (by decide)
  have hbp : baselinePeriods smallDf = [0, 1, 2] := by
    rw [baselinePeriods, hps]
    rfl
  have hcrows : currentRows smallDf = [⟨3, "Coffee", "Dining", 21⟩] := rfl
  have hcur : currentByCat smallDf "Dining" = 21 := by
    rw [currentByCat, hcrows]
    norm_num [qsum]
  have hbase : baselineByCat smallDf "Dining" = 20 := by
    rw [baselineByCat, hbp]
    norm_num [qsum, smallDf]
  have hdelta : deltaOf smallDf "Dining" = 1 := by
    rw [deltaOf, hcur, hbase]
    norm_num
  have hcats : catsOf smallDf = ["Dining"] := by
    rw [catsOf]
    have hf : ((smallDf.filter (fun r =>
        decide (r.ym = currentPeriod smallDf) || decide (r.ym ∈ baselinePeriods smallDf))).map
          (fun r : InsRow => r.category)).dedup = ["Dining"] := by
      simp only [hcp, hbp]
      decide
    rw [hf, List.mergeSort_singleton]
  have hccand : categoryCandidates smallDf = [] := by
    simp only [categoryCandidates, hcats, List.filterMap_cons, List.filterMap_nil, hdelta]
    norm_num
  have hmerch : currentMerchants smallDf = ["Coffee"] := by
    rw [currentMerchants, hcrows]
    show (["Coffee"] : List String).mergeSort (fun a b => decide (a ≤ b)) = ["Coffee"]
    exact List.mergeSort_singleton _
  have hms : merchantSum smallDf "Coffee" = 21 := by
    rw [merchantSum, hcrows]
    norm_num [qsum]
  have hts : topMerchant smallDf = some ("Coffee", 21) := by
    rw [topMerchant, hmerch, List.foldl_cons, List.foldl_nil]
    dsimp only
    rw [hms]
  have hmi : merchantInsight smallDf =
      [⟨"merchant", "Top Merchant", "Top merchant: Coffee", 21, 21, 0, "info"⟩] := by
    rw [merchantInsight, hts]
    rfl
  rw [insightCandidates, hccand, hmi]
  rfl

/-- Claim C5: `compute_insights` returns the empty list for fewer than 2
distinct months; otherwise a category candidate is emitted exactly when
`|pct| >= 0.20` and `|delta| >= 25`, where `pct` falls back to the
zero-baseline sentinel values (never an arithmetic fault) and the indicator
is `spike` for positive delta, `drop` otherwise; a $200-baseline category
rising to $400 is flagged `spike`, $100 falling to $30 is flagged `drop`,
and a $20 → $21 change is not flagged. -/
theorem compute_insights_correct :
    (∀ df : List InsRow, (ymsOf df).length < 2 → compute_insights df = []) ∧
    (∀ (df : List InsRow) (cat : String),
      (∃ i ∈ categoryCandidates df, i.category = cat) ↔
        (cat ∈ catsOf df ∧ 1/5 ≤ |pctOf df cat| ∧ 25 ≤ |deltaOf df cat|)) ∧
    (∀ (df : List InsRow) (cat : String),
      pctOf df cat = if 0 < baselineByCat df cat then deltaOf df cat / baselineByCat df cat
        else if 0 < currentByCat df cat then 1 else 0) ∧
    (∀ (df : List InsRow) (i : Insight), i ∈ categoryCandidates df →
      i.dollar_change = deltaOf df i.category ∧
      i.indicator = (if 0 < deltaOf df i.category then "spike" else "drop")) ∧
    (∃ i ∈ compute_insights spikeDf, i.category = "Dining" ∧ i.indicator = "spike") ∧
    (∃ i ∈ compute_insights dropDf, i.category = "Health" ∧ i.indicator = "drop") ∧
    (∀ i ∈ compute_insights smallDf, i.type ≠ "category") := by
  refine ⟨?_, mem_categoryCandidates_iff, fun df cat => rfl, ?_, ?_, ?_, ?_⟩
  · intro df h
    rw [compute_insights, if_pos (Or.inr h)]
  · intro df i hi
    obtain ⟨_, _, h3, _, h5⟩ := categoryCandidates_fields df i hi
    exact ⟨h3, h5⟩
  · have hps : priorSorted spikeDf = [0, 1, 2] := by
      rw [priorSorted]
      have hf : (ymsOf spikeDf).filter (fun p => decide (p < currentPeriod spikeDf))
          = [0, 1, 2] := by decide
      rw [hf]
      exact List.mergeSort_of_sorted (by decide)
    have hb : ¬((baselinePeriods spikeDf).length = 0) := by
      rw [baselinePeriods, hps]
      decide
    have hl : (insightCandidates spikeDf).length ≤ 5 := by
      rw [spikeDf_candidates]
      decide
    refine ⟨⟨"category", "Dining", catHeadline "Dining" 200 1, 400, 200, 1, "spike"⟩,
      (mem_compute_insights_iff spikeDf (by decide) hb hl _).mpr ?_, rfl, rfl⟩
    rw [spikeDf_candidates]
    exact List.mem_cons_self _ _
  · have hps : priorSorted dropDf = [0, 1, 2] := by
      rw [priorSorted]
      have hf : (ymsOf dropDf).filter (fun p => decide (p < currentPeriod dropDf))
          = [0, 1, 2] := by decide
      rw [hf]
      exact List.mergeSort_of_sorted (by decide)
    have hb : ¬((baselinePeriods dropDf).length = 0) := by
      rw [baselinePeriods, hps]
      decide
    have hl : (insightCandidates dropDf).length ≤ 5 := by
      rw [dropDf_candidates]
      decide
    refine ⟨⟨"category", "Health", catHeadline "Health" (-70) (-7/10), 30, -70, -7/10, "drop"⟩,
      (mem_compute_insights_iff dropDf (by decide) hb hl _).mpr ?_, rfl, rfl⟩
    rw [dropDf_candidates]
    exact List.mem_cons_self _ _
  · intro i hi
    have hps : priorSorted smallDf = [0, 1, 2] := by
      rw [priorSorted]
      have hf : (ymsOf smallDf).filter (fun p => decide (p < currentPeriod smallDf))
          = [0, 1, 2] := by decide
      rw [hf]
      exact List.mergeSort_of_sorted (by decide)
    have hb : ¬((baselinePeriods smallDf).length = 0) := by
      rw [baselinePeriods, hps]
      decide
    have hl : (insightCandidates smallDf).length ≤ 5 := by
      rw [smallDf_candidates]
      decide
    rw [mem_compute_insights_iff smallDf (by decide) hb hl i, smallDf_candidates,
      List.mem_singleton] at hi
    rw [hi]
    decide

/-- Witness for `compute_insights_correct`: a one-month ledger produces no
insights. -/
theorem compute_insights_correct_witness :
    compute_insights [InsRow.mk 0 "Target" "Shopping" 50] = [] :=
  compute_insights_correct.1 [InsRow.mk 0 "Target" "Shopping" 50] (by decide)

theorem topFoldAux (f : String → ℚ) :
    ∀ (l : List String) (m0 : String) (s0 : ℚ), s0 = f m0 →
      ∃ m s, (l.foldl (fun acc m => match acc with
          | none => some (m, f m)
          | some (m1, s1) => if f m > s1 then some (m, f m) else some (m1, s1))
            (some (m0, s0)))
        = some (m, s) ∧ s = f m ∧ s0 ≤ s ∧ ∀ m' ∈ l, f m' ≤ s := by
  intro l
  induction l with
  | nil =>
    intro m0 s0 hs
    exact ⟨m0, s0, rfl, hs, le_refl _, by simp⟩
  | cons x rest ih =>
    intro m0 s0 hs
    rw [List.foldl_cons]
    dsimp only
    by_cases hx : f x > s0
    · rw [if_pos hx]
      obtain ⟨m, s, h1, h2, h3, h4⟩ := ih x (f x) rfl
      refine ⟨m, s, h1, h2, le_trans (le_of_lt hx) h3, ?_⟩
      intro m' hm'
      rcases List.mem_cons.mp hm' with h | h
      · exact h ▸ h3
      · exact h4 m' h
    · rw [if_neg hx]
      obtain ⟨m, s, h1, h2, h3, h4⟩ := ih m0 s0 hs
      refine ⟨m, s, h1, h2, h3, ?_⟩
      intro m' hm'
      rcases List.mem_cons.mp hm' with h | h
      · rw [h]
        exact le_trans (le_of_not_lt hx) h3
      · exact h4 m' h

/-- With a non-empty current period, `nlargest(1)` returns a merchant whose
sum dominates every current-period merchant sum. -/
theorem topMerchant_spec (df : List InsRow) (hne : currentRows df ≠ []) :
    ∃ m s, topMerchant df = some (m, s) ∧ s = merchantSum df m ∧
      ∀ m' ∈ currentMerchants df, merchantSum df m' ≤ s := by
  have hm : currentMerchants df ≠ [] := by
    obtain ⟨r, hr⟩ := List.exists_mem_of_ne_nil _ hne
    apply List.ne_nil_of_mem (a := r.description)
    rw [currentMerchants, (List.mergeSort_perm _ _).mem_iff, List.mem_dedup, List.mem_map]
    exact ⟨r, hr, rfl⟩
  cases hml : currentMerchants df with
  | nil => exact absurd hml hm
  | cons x rest =>
    rw [topMerchant, hml, List.foldl_cons]
    dsimp only
    obtain ⟨m, s, h1, h2, h3, h4⟩ := topFoldAux (merchantSum df) rest x (merchantSum df x) rfl
    refine ⟨m, s, h1, h2, ?_⟩
    intro m' hm'
    rcases List.mem_cons.mp hm' with h | h
    · exact h ▸ h3
    · exact h4 m' h

theorem insightSortLe_trans :
    ∀ a b c : Insight,
      decide (|b.dollar_change| ≤ |a.dollar_change|) = true →
      decide (|c.dollar_change| ≤ |b.dollar_change|) = true →
      decide (|c.dollar_change| ≤ |a.dollar_change|) = true := by
  intro a b c hab hbc
  rw [decide_eq_true_eq] at hab hbc ⊢
  exact le_trans hbc hab

theorem insightSortLe_total :
    ∀ a b : Insight,
      (decide (|b.dollar_change| ≤ |a.dollar_change|)
        || decide (|a.dollar_change| ≤ |b.dollar_change|)) = true := by
  intro a b
  rw [Bool.or_eq_true, decide_eq_true_eq, decide_eq_true_eq]
  exact le_total _ _

/-- Claim C10 (amended): for every slice with at least 2 distinct months and
a non-empty current period, the candidate list built by `compute_insights`
(before the 5-entry cap) contains an `info` candidate for the single
highest-spend merchant of the current period; the returned list is sorted by
`|delta|` descending and has at most 5 entries.  (As stated the claim is
false: the cap can evict the info candidate — see the counterexample.) -/
theorem top_merchant_insight (df : List InsRow)
    (hmonths : 2 ≤ (ymsOf df).length) (hcur : currentRows df ≠ []) :
    (∃ m s, topMerchant df = some (m, s) ∧ s = merchantSum df m ∧
      (∀ m' ∈ currentMerchants df, merchantSum df m' ≤ s) ∧
      (⟨"merchant", "Top Merchant", "Top merchant: " ++ m, s, s, 0, "info"⟩ : Insight)
        ∈ insightCandidates df) ∧
    List.Pairwise (fun a b : Insight => |b.dollar_change| ≤ |a.dollar_change|)
      (compute_insights df) ∧
    (compute_insights df).length ≤ 5 := by
  refine ⟨?_, ?_, ?_⟩
  · obtain ⟨m, s, h1, h2, h3⟩ := topMerchant_spec df hcur
    refine ⟨m, s, h1, h2, h3, ?_⟩
    rw [insightCandidates, List.mem_append]
    right
    rw [merchantInsight, h1]
    exact List.mem_singleton_self _
  · rw [compute_insights]
    by_cases hg : df.isEmpty = true ∨ (ymsOf df).length < 2
    · rw [if_pos hg]
      exact List.Pairwise.nil
    · rw [if_neg hg]
      by_cases hb : (baselinePeriods df).length = 0
      · rw [if_pos hb]
        exact List.Pairwise.nil
      · rw [if_neg hb]
        apply List.Pairwise.sublist (List.take_sublist _ _)
        have hs := List.sorted_mergeSort insightSortLe_trans insightSortLe_total
          (insightCandidates df)
        exact hs.imp (fun h => of_decide_eq_true h)
  · rw [compute_insights]
    by_cases hg : df.isEmpty = true ∨ (ymsOf df).length < 2
    · rw [if_pos hg]
      simp
    · rw [if_neg hg]
      by_cases hb : (baselinePeriods df).length = 0
      · rw [if_pos hb]
        simp
      · rw [if_neg hb]
        exact List.length_take_le _ _

/-- Witness for `top_merchant_insight` at the spike example slice. -/
theorem top_merchant_insight_witness :
    2 ≤ (ymsOf spikeDf).length ∧ (compute_insights spikeDf).length ≤ 5 :=
  ⟨by decide, (top_merchant_insight spikeDf (by decide) (by decide)).2.2⟩

/-- Truncation counterexample input: five categories with a $1000 baseline
and nothing in the current month, plus one $30 current-month merchant. -/
def cexDf : List InsRow :=
  [⟨0, "MA", "A", 1000⟩, ⟨0, "MB", "B", 1000⟩, ⟨0, "MC", "C", 1000⟩,
   ⟨0, "MD", "D", 1000⟩, ⟨0, "ME", "E", 1000⟩, ⟨1, "Tiny", "F", 30⟩]

theorem cexDf_insights :
    compute_insights cexDf =
      [⟨"category", "A", catHeadline "A" (-1000) (-1), 0, -1000, -1, "drop"⟩,
       ⟨"category", "B", catHeadline "B" (-1000) (-1), 0, -1000, -1, "drop"⟩,
       ⟨"category", "C", catHeadline "C" (-1000) (-1), 0, -1000, -1, "drop"⟩,
       ⟨"category", "D", catHeadline "D" (-1000) (-1), 0, -1000, -1, "drop"⟩,
       ⟨"category", "E", catHeadline "E" (-1000) (-1), 0, -1000, -1, "drop"⟩] := by
  have hcp : currentPeriod cexDf = 1 := by decide
  have hps : priorSorted cexDf = [0] := by
    rw [priorSorted]
    have hf : (ymsOf cexDf).filter (fun p => decide (p < currentPeriod cexDf)) = [0] := by
      decide
    rw [hf]
    exact List.mergeSort_singleton _
  have hbp : baselinePeriods cexDf = [0] := by
    rw [baselinePeriods, hps]
    rfl
  have hcrows : currentRows cexDf = [⟨1, "Tiny", "F", 30⟩] := rfl
  have hcats : catsOf cexDf = ["A", "B", "C", "D", "E", "F"] := by
    rw [catsOf]
    have hf : ((cexDf.filter (fun r =>
        decide (r.ym = currentPeriod cexDf) || decide (r.ym ∈ baselinePeriods cexDf))).map
          (fun r : InsRow => r.category)).dedup = ["A", "B", "C", "D", "E", "F"] := by
      simp only [hcp, hbp]
      decide
    rw [hf]
    refine List.mergeSort_of_sorted ?_
    simp
    decide
  have hcA : currentByCat cexDf "A" = 0 := rfl
  have hcB : currentByCat cexDf "B" = 0 := rfl
  have hcC : currentByCat cexDf "C" = 0 := rfl
  have hcD : currentByCat cexDf "D" = 0 := rfl
  have hcE : currentByCat cexDf "E" = 0 := rfl
  have hbA : baselineByCat cexDf "A" = 1000 := by
    rw [baselineByCat, hbp]
    show (1000 + 0 : ℚ) / ((1 : ℕ) : ℚ) = 1000
    norm_num
  have hbB : baselineByCat cexDf "B" = 1000 := by
    rw [baselineByCat, hbp]
    show (1000 + 0 : ℚ) / ((1 : ℕ) : ℚ) = 1000
    norm_num
  have hbC : baselineByCat cexDf "C" = 1000 := by
    rw [baselineByCat, hbp]
    show (1000 + 0 : ℚ) / ((1 : ℕ) : ℚ) = 1000
    norm_num
  have hbD : baselineByCat cexDf "D" = 1000 := by
    rw [baselineByCat, hbp]
    show (1000 + 0 : ℚ) / ((1 : ℕ) : ℚ) = 1000
    norm_num
  have hbE : baselineByCat cexDf "E" = 1000 := by
    rw [baselineByCat, hbp]
    show (1000 + 0 : ℚ) / ((1 : ℕ) : ℚ) = 1000
    norm_num
  have hdA : deltaOf cexDf "A" = -1000 := by rw [deltaOf, hcA, hbA]; norm_num
  have hdB : deltaOf cexDf "B" = -1000 := by rw [deltaOf, hcB, hbB]; norm_num
  have hdC : deltaOf cexDf "C" = -1000 := by rw [deltaOf, hcC, hbC]; norm_num
  have hdD : deltaOf cexDf "D" = -1000 := by rw [deltaOf, hcD, hbD]; norm_num
  have hdE : deltaOf cexDf "E" = -1000 := by rw [deltaOf, hcE, hbE]; norm_num
  have hpA : pctOf cexDf "A" = -1 := by rw [pctOf, hbA, hdA]; norm_num
  have hpB : pctOf cexDf "B" = -1 := by rw [pctOf, hbB, hdB]; norm_num
  have hpC : pctOf cexDf "C" = -1 := by rw [pctOf, hbC, hdC]; norm_num
  have hpD : pctOf cexDf "D" = -1 := by rw [pctOf, hbD, hdD]; norm_num
  have hpE : pctOf cexDf "E" = -1 := by rw [pctOf, hbE, hdE]; norm_num
  have hcF : currentByCat cexDf "F" = 30 := by
    rw [currentByCat, hcrows]
    norm_num [qsum]
  have hbF : baselineByCat cexDf "F" = 0 := by
    rw [baselineByCat, hbp]
    show (0 : ℚ) / ((1 : ℕ) : ℚ) = 0
    norm_num
  have hdF : deltaOf cexDf "F" = 30 := by rw [deltaOf, hcF, hbF]; norm_num
  have hpF : pctOf cexDf "F" = 1 := by rw [pctOf, hbF, hcF]; norm_num
  have ha1 : |(-1 : ℚ)| = 1 := by norm_num
  have ha1000 : |(-1000 : ℚ)| = 1000 := by norm_num
  have ha30 : |(30 : ℚ)| = 30 := abs_of_pos (by norm_num)
  have haone : |(1 : ℚ)| = 1 := abs_one
  have hccand : categoryCandidates cexDf =
      [⟨"category", "A", catHeadline "A" (-1000) (-1), 0, -1000, -1, "drop"⟩,
       ⟨"category", "B", catHeadline "B" (-1000) (-1), 0, -1000, -1, "drop"⟩,
       ⟨"category", "C", catHeadline "C" (-1000) (-1), 0, -1000, -1, "drop"⟩,
       ⟨"category", "D", catHeadline "D" (-1000) (-1), 0, -1000, -1, "drop"⟩,
       ⟨"category", "E", catHeadline "E" (-1000) (-1), 0, -1000, -1, "drop"⟩,
       ⟨"category", "F", catHeadline "F" 30 1, 30, 30, 1, "spike"⟩] := by
    simp only [categoryCandidates, hcats, List.filterMap_cons, List.filterMap_nil,
      hpA, hdA, hcA, hpB, hdB, hcB, hpC, hdC, hcC, hpD, hdD, hcD, hpE, hdE, hcE,
      hpF, hdF, hcF, ha1, ha1000, ha30, haone]
    norm_num
  have hmerch : currentMerchants cexDf = ["Tiny"] := by
    rw [currentMerchants, hcrows]
    show (["Tiny"] : List String).mergeSort (fun a b => decide (a ≤ b)) = ["Tiny"]
    exact List.mergeSort_singleton _
  have hms : merchantSum cexDf "Tiny" = 30 := by
    rw [merchantSum, hcrows]
    norm_num [qsum]
  have hts : topMerchant cexDf = some ("Tiny", 30) := by
    rw [topMerchant, hmerch, List.foldl_cons, List.foldl_nil]
    dsimp only
    rw [hms]
  have hmi : merchantInsight cexDf =
      [⟨"merchant", "Top Merchant", "Top merchant: Tiny", 30, 30, 0, "info"⟩] := by
    rw [merchantInsight, hts]
    rfl
  have hcands : insightCandidates cexDf =
      [⟨"category", "A", catHeadline "A" (-1000) (-1), 0, -1000, -1, "drop"⟩,
       ⟨"category", "B", catHeadline "B" (-1000) (-1), 0, -1000, -1, "drop"⟩,
       ⟨"category", "C", catHeadline "C" (-1000) (-1), 0, -1000, -1, "drop"⟩,
       ⟨"category", "D", catHeadline "D" (-1000) (-1), 0, -1000, -1, "drop"⟩,
       ⟨"category", "E", catHeadline "E" (-1000) (-1), 0, -1000, -1, "drop"⟩,
       ⟨"category", "F", catHeadline "F" 30 1, 30, 30, 1, "spike"⟩,
       ⟨"merchant", "Top Merchant", "Top merchant: Tiny", 30, 30, 0, "info"⟩] := by
    rw [insightCandidates, hccand, hmi]
    rfl
  rw [compute_insights, if_neg (by decide), if_neg (by rw [hbp]; decide), hcands]
  have hsort :
      ([⟨"category", "A", catHeadline "A" (-1000) (-1), 0, -1000, -1, "drop"⟩,
        ⟨"category", "B", catHeadline "B" (-1000) (-1), 0, -1000, -1, "drop"⟩,
        ⟨"category", "C", catHeadline "C" (-1000) (-1), 0, -1000, -1, "drop"⟩,
        ⟨"category", "D", catHeadline "D" (-1000) (-1), 0, -1000, -1, "drop"⟩,
        ⟨"category", "E", catHeadline "E" (-1000) (-1), 0, -1000, -1, "drop"⟩,
        ⟨"category", "F", catHeadline "F" 30 1, 30, 30, 1, "spike"⟩,
        ⟨"merchant", "Top Merchant", "Top merchant: Tiny", 30, 30, 0, "info"⟩] :
          List Insight).mergeSort
        (fun a b => decide (|b.dollar_change| ≤ |a.dollar_change|))
      = [⟨"category", "A", catHeadline "A" (-1000) (-1), 0, -1000, -1, "drop"⟩,
         ⟨"category", "B", catHeadline "B" (-1000) (-1), 0, -1000, -1, "drop"⟩,
         ⟨"category", "C", catHeadline "C" (-1000) (-1), 0, -1000, -1, "drop"⟩,
         ⟨"category", "D", catHeadline "D" (-1000) (-1), 0, -1000, -1, "drop"⟩,
         ⟨"category", "E", catHeadline "E" (-1000) (-1), 0, -1000, -1, "drop"⟩,
         ⟨"category", "F", catHeadline "F" 30 1, 30, 30, 1, "spike"⟩,
         ⟨"merchant", "Top Merchant", "Top merchant: Tiny", 30, 30, 0, "info"⟩] := by
    norm_num [List.mergeSort, List.merge, ha1, ha1000, ha30, haone]
  rw [hsort]
  rfl

/-- Claim C10, counterexample: on `cexDf` (2 distinct months, non-empty
current period) the five $1000 category drops fill the 5-entry cap and the
returned list contains no `info` top-merchant candidate, so the claim as
stated is false. -/
theorem top_merchant_truncated :
    2 ≤ (ymsOf cexDf).length ∧ currentRows cexDf ≠ [] ∧
    ¬ (∃ i ∈ compute_insights cexDf, i.indicator = "info") := by
  refine ⟨by decide, by decide, ?_⟩
  rw [cexDf_insights]
  rintro ⟨i, hi, hind⟩
  simp only [List.mem_cons, List.not_mem_nil, or_false] at hi
  rcases hi with rfl | rfl | rfl | rfl | rfl <;> exact absurd hind (by decide)

end SpendingTracker
